import Mathlib

/-!
Verification development for the ensemble report scoring pipeline
(`report/generate_figures.py`).

Modelling conventions:
* Python strings are `String` / `List Char`; all text handling is ASCII,
  which covers the data this pipeline consumes.
* Python floats are carried as rationals (`ℚ`).  Decimal parsing and
  the `0.15` error-rate threshold are exact over `ℚ` (the error-rate
  comparison agrees with the float code on every realistic input: the
  first integer ratio that float rounding could misclassify against the
  exact `3/20` threshold needs more than `10^15` responses).  The
  tolerance comparison of `evaluate_answer` is modelled in IEEE-754
  binary64 semantics: `roundDouble` rounds a rational to the nearest
  double (round half to even, 53-bit significand; subnormals and
  overflow lie outside the value range of this pipeline and are not
  modelled), and the parsed operands, their difference and the literal
  `1e-6` are all so rounded, exactly as `float` arithmetic computes
  them.
* The `return None` quality gates and the uncaught `ValueError` that
  `max(model_acc, key=model_acc.get)` raises on an empty model list are
  distinguished by the outcome type `LoadOutcome`; `load_ensemble`
  returns `some` exactly when the program returns a statistics record.
* The regular expressions of `extract_numeric` / `extract_mcq` are
  embedded as character-level scanners with the leftmost-match,
  greedy-quantifier semantics of `re.search`; for these particular
  patterns greedy matching without backtracking is equivalent to full
  regex matching because no character that a greedy quantifier could
  give back can start the trailing context.
* JSON records become structures whose fields carry the defaults that
  the Python `dict.get(...)` calls supply.
-/

/-- Python `\s` / `str.strip` whitespace (ASCII part). -/
def isPySpace (c : Char) : Bool :=
  c = ' ' || c = '\t' || c = '\n' || c = '\r' || c = '\x0b' || c = '\x0c'

/-- Characters allowed after the leading digit of a numeric token:
`[\d,]` in the pattern `[+-]?\d[\d,]*\.?\d*`. -/
def isNumMid (c : Char) : Bool := c.isDigit || c = ','

/-- Python `\w` (ASCII part), used for the `\b` word boundary. -/
def isWordChar (c : Char) : Bool := c.isAlphanum || c = '_'

/-- `[A-Da-d]` character class of the multiple-choice patterns. -/
def mcqLetter (c : Char) : Bool :=
  c = 'A' || c = 'B' || c = 'C' || c = 'D' ||
  c = 'a' || c = 'b' || c = 'c' || c = 'd'

/-- Value of a digit string, most significant first. -/
def digitsToNat (l : List Char) : Nat :=
  l.foldl (fun a c => a * 10 + (c.toNat - 48)) 0

/-- Unsigned decimal parser: `digits`, `digits.digits`, `digits.` or
`.digits` (the grammar `float()` accepts on the inputs this pipeline
sees; exponents and digit underscores are not modelled). -/
def parseUnsignedQ (l : List Char) : Option ℚ :=
  let a := l.takeWhile Char.isDigit
  match l.dropWhile Char.isDigit with
  | [] => if a.isEmpty then none else some ((digitsToNat a : ℚ))
  | '.' :: b =>
    if b.all Char.isDigit && !(a.isEmpty && b.isEmpty) then
      some ((digitsToNat a : ℚ) + (digitsToNat b : ℚ) / ((10 : ℚ) ^ b.length))
    else none
  | _ => none

/-- Signed decimal parser (no surrounding whitespace): Python
`float(s)` on an already-stripped string. -/
def parseFloatCore (l : List Char) : Option ℚ :=
  match l with
  | '+' :: r => parseUnsignedQ r
  | '-' :: r => (parseUnsignedQ r).map (fun q => -q)
  | _ => parseUnsignedQ l

/-- `float(tok.replace(',', ''))` applied to a matched numeric token. -/
def parseTok (t : List Char) : Option ℚ :=
  parseFloatCore (t.filter (fun c => c ≠ ','))

/-- Python `str.strip()` (ASCII whitespace). -/
def stripWS (l : List Char) : List Char :=
  ((l.dropWhile isPySpace).reverse.dropWhile isPySpace).reverse

/-- `float(str(ground_truth).replace(',', ''))` of `evaluate_answer`:
commas removed, whitespace stripped by `float`, then parsed. -/
def pyFloatGT (s : String) : Option ℚ :=
  parseFloatCore (stripWS (s.data.filter (fun c => c ≠ ',')))

/-- The rest of the input when it starts with a decimal point
(the optional `\.` of the token pattern). -/
def dotTail : List Char → Option (List Char)
  | '.' :: rest2 => some rest2
  | _ => none

/-- Greedy match of `\d[\d,]*\.?\d*` at the head of the input; returns
the matched token and the remaining input. -/
def numTokenCore (l : List Char) : Option (List Char × List Char) :=
  match l with
  | c :: rest =>
    if c.isDigit then
      let mid := rest.takeWhile isNumMid
      let l2 := rest.dropWhile isNumMid
      match dotTail l2 with
      | some rest2 =>
        some (c :: mid ++ '.' :: rest2.takeWhile Char.isDigit,
              rest2.dropWhile Char.isDigit)
      | none => some (c :: mid, l2)
    else none
  | [] => none

/-- Greedy match of `[+-]?\d[\d,]*\.?\d*` at the head of the input. -/
def numTokenAt (l : List Char) : Option (List Char × List Char) :=
  match l with
  | '+' :: rest => (numTokenCore rest).map (fun p => ('+' :: p.1, p.2))
  | '-' :: rest => (numTokenCore rest).map (fun p => ('-' :: p.1, p.2))
  | _ => numTokenCore l

/-- `re.findall(r'[+-]?\d[\d,]*\.?\d*', text)`: scan left to right,
emit each non-overlapping greedy match (fuel-indexed; the initial fuel
`l.length` always suffices because every emitted token is non-empty). -/
def findNumTokensF : Nat → List Char → List (List Char)
  | 0, _ => []
  | _, [] => []
  | fuel + 1, c :: rest =>
    match numTokenAt (c :: rest) with
    | some (t, r) => t :: findNumTokensF fuel r
    | none => findNumTokensF fuel rest

/-- All numeric tokens of a text, in order. -/
def findNumTokens (l : List Char) : List (List Char) :=
  findNumTokensF l.length l

/-- `re.search`: try the position matcher at each position from the
left; the first position where it succeeds wins. -/
def searchFirst (m : List Char → Option α) : List Char → Option α
  | [] => none
  | c :: rest =>
    match m (c :: rest) with
    | some v => some v
    | none => searchFirst m rest

/-- Case-insensitive literal match: on success returns the input with
the cue removed. -/
def cueMatchCI : List Char → List Char → Option (List Char)
  | [], l => some l
  | _ :: _, [] => none
  | p :: ps, c :: cs => if p.toLower = c.toLower then cueMatchCI ps cs else none

/-- Drop one leading currency symbol if present (`\$?`). -/
def skipDollar : List Char → List Char
  | '$' :: t => t
  | r1 => r1

/-- `\s*\$?\s*([+-]?\d[\d,]*\.?\d*)` after a cue: whitespace, optional
currency symbol, whitespace, then the captured numeric token. -/
def numAfterCue (r : List Char) : Option (List Char) :=
  ((numTokenAt ((skipDollar (r.dropWhile isPySpace)).dropWhile isPySpace)).map Prod.fst)

/-- Position matcher for the first `extract_numeric` pattern
`(?:final answer|answer is|equals|=)\s*\$?\s*([+-]?\d[\d,]*\.?\d*)`
(IGNORECASE); the four cue alternatives start with distinct characters,
so at most one can begin at a given position. -/
def p1At (l : List Char) : Option (List Char) :=
  match cueMatchCI ("final answer".data) l with
  | some r => numAfterCue r
  | none =>
  match cueMatchCI ("answer is".data) l with
  | some r => numAfterCue r
  | none =>
  match cueMatchCI ("equals".data) l with
  | some r => numAfterCue r
  | none =>
  match cueMatchCI ("=".data) l with
  | some r => numAfterCue r
  | none => none

/-- Does the input start with the emphasis marker `**`? -/
def starStar : List Char → Bool
  | '*' :: '*' :: _ => true
  | _ => false

/-- Position matcher for `\*\*\$?([+-]?\d[\d,]*\.?\d*)\*\*`. -/
def p2At (l : List Char) : Option (List Char) :=
  match l with
  | '*' :: '*' :: r =>
    match numTokenAt (skipDollar r) with
    | some (t, rest) => if starStar rest then some t else none
    | none => none
  | _ => none

/-- Position matcher for `\$([+-]?\d[\d,]*\.?\d*)`. -/
def p3At (l : List Char) : Option (List Char) :=
  match l with
  | '$' :: r => (numTokenAt r).map Prod.fst
  | _ => none

/-- `extract_numeric(text)`: the three patterns in priority order, each
searched over the whole text, then the last standalone numeric token as
fallback; `None` for empty text or when no token exists. -/
def extract_numeric (text : String) : Option ℚ :=
  if text = "" then none
  else
    match searchFirst p1At text.data with
    | some g => parseTok g
    | none =>
    match searchFirst p2At text.data with
    | some g => parseTok g
    | none =>
    match searchFirst p3At text.data with
    | some g => parseTok g
    | none => ((findNumTokens text.data).getLast?).bind parseTok

/-- `\s*\(?([A-Da-d])\)?` after a multiple-choice cue: whitespace,
optional opening parenthesis, then the captured letter.  The trailing
`\)?` can never cause a failure. -/
def mcqAfterCue (r : List Char) : Option Char :=
  let r1 := r.dropWhile isPySpace
  let r2 := match r1 with
    | '(' :: t => t
    | _ => r1
  match r2 with
  | c :: _ => if mcqLetter c then some c else none
  | [] => none

/-- Position matcher for the first `extract_mcq` pattern
`(?:answer is|correct answer is|answer:)\s*\(?([A-Da-d])\)?`
(IGNORECASE). -/
def mcq1At (l : List Char) : Option Char :=
  match cueMatchCI ("answer is".data) l with
  | some r => mcqAfterCue r
  | none =>
  match cueMatchCI ("correct answer is".data) l with
  | some r => mcqAfterCue r
  | none =>
  match cueMatchCI ("answer:".data) l with
  | some r => mcqAfterCue r
  | none => none

/-- Search for `\b([A-Da-d])\)`: a scan carrying whether the previous
character was a word character (start of string counts as non-word). -/
def mcq2Scan : Bool → List Char → Option Char
  | _, [] => none
  | prevW, c :: rest =>
    if prevW = false ∧ mcqLetter c = true ∧ rest.head? = some ')' then some c
    else mcq2Scan (isWordChar c) rest

/-- Position matcher for `\*\*([A-Da-d])\*\*`. -/
def mcq3At (l : List Char) : Option Char :=
  match l with
  | '*' :: '*' :: c :: '*' :: '*' :: _ => if mcqLetter c then some c else none
  | _ => none

/-- `text.upper() in 'ABCD'` for a single character. -/
def upperABCD (c : Char) : Bool :=
  c.toUpper = 'A' || c.toUpper = 'B' || c.toUpper = 'C' || c.toUpper = 'D'

/-- `extract_mcq(text)`: three patterns in priority order, then the
trimmed-single-letter fallback; the result is always uppercased. -/
def extract_mcq (text : String) : Option String :=
  if text = "" then none
  else
    match searchFirst mcq1At text.data with
    | some c => some (String.singleton c.toUpper)
    | none =>
    match mcq2Scan false text.data with
    | some c => some (String.singleton c.toUpper)
    | none =>
    match searchFirst mcq3At text.data with
    | some c => some (String.singleton c.toUpper)
    | none =>
      match stripWS text.data with
      | [c] => if upperABCD c then some (String.singleton c.toUpper) else none
      | _ => none

/-- Python `str.upper()` (ASCII, character by character). -/
def upperStr (s : String) : String := ⟨s.data.map Char.toUpper⟩

/-- `(2 : ℚ) ^ k` for an integer exponent. -/
def pow2Z (k : ℤ) : ℚ := 2 ^ k

/-- Round to the nearest integer, ties to even (the IEEE default
rounding). -/
def roundHalfEven (x : ℚ) : ℤ :=
  if x - ⌊x⌋ < 1 / 2 then ⌊x⌋
  else if 1 / 2 < x - ⌊x⌋ then ⌊x⌋ + 1
  else if ⌊x⌋ % 2 = 0 then ⌊x⌋ else ⌊x⌋ + 1

/-- Walk `c` toward the exponent `e` with `2 ^ e ≤ q < 2 ^ (e + 1)`
(the fuel bounds the number of steps). -/
def expSearch : Nat → ℚ → ℤ → ℤ
  | 0, _, c => c
  | fuel + 1, q, c =>
    if q < pow2Z c then expSearch fuel q (c - 1)
    else if pow2Z (c + 1) ≤ q then expSearch fuel q (c + 1)
    else c

/-- `⌊log₂ q⌋` of a positive rational (fuel 1200 covers every exponent
of the IEEE binary64 range). -/
def dblExp (q : ℚ) : ℤ := expSearch 1200 q 0

/-- Round a rational to the nearest IEEE-754 binary64 value (round half
to even, 53-bit significand): the value `float` arithmetic produces for
each operation result.  Subnormals and overflow lie outside the value
range of this pipeline and are not modelled. -/
def roundDouble (q : ℚ) : ℚ :=
  if q = 0 then 0
  else if q < 0 then
    -((roundHalfEven (|q| / pow2Z (dblExp |q| - 52)) : ℚ) * pow2Z (dblExp |q| - 52))
  else (roundHalfEven (q / pow2Z (dblExp q - 52)) : ℚ) * pow2Z (dblExp q - 52)

/-- The double denoted by the source literal `1e-6` (the binary64 value
nearest `10⁻⁶`). -/
def eps64 : ℚ := roundDouble (1 / 1000000)

/-- `evaluate_answer(evaluator, answer, ground_truth)`.  On the numeric
path every `float` quantity is a double: the parsed answer and ground
truth are the decimal values rounded to binary64, their difference is
rounded again (IEEE subtraction), and the strict comparison is against
the double nearest `1e-6`. -/
def evaluate_answer (evaluator answer ground_truth : String) : Bool :=
  if answer = "" || ground_truth = "" then false
  else if evaluator = "numeric" then
    match pyFloatGT ground_truth with
    | none => false
    | some e =>
      match extract_numeric answer with
      | none => false
      | some p => decide (|roundDouble (roundDouble p - roundDouble e)| < eps64)
  else if evaluator = "mcq" then
    match extract_mcq answer with
    | none => false
    | some pr => upperStr pr = upperStr ground_truth
  else false

/-- One model's raw output for one run (`responses[...]` record).
Field defaults mirror the `dict.get` defaults of the source. -/
structure Response where
  model : String := ""
  content : String := ""
  error : Bool := false
deriving DecidableEq

/-- Precomputed evaluation metadata for one model on one run
(`evaluation.results[model]`).  `correct = none` models an absent
`correct` key, `predicted = none` an absent or null `predicted`. -/
structure EvalResult where
  correct : Option Bool := none
  predicted : Option String := none
deriving DecidableEq

/-- One benchmark question instance (`runs[...]` record). -/
structure Run where
  groundTruth : String := ""
  responses : List Response := []
  consensus : List (String × String) := []
  evaluation : List (String × EvalResult) := []
deriving DecidableEq

/-- One ensemble input file (`{dataset, models, strategies, runs}`). -/
structure EnsembleBatch where
  dataset : String := "unknown"
  models : List String := []
  strategies : List String := []
  runs : List Run := []
deriving DecidableEq

/-- The statistics record returned by `load_ensemble` on acceptance. -/
structure EnsembleStats where
  dataset : String
  n : Nat
  models : List String
  strategies : List String
  model_acc : List (String × ℚ)
  strategy_acc : List (String × ℚ)
  oracle_acc : ℚ
  mechanical_majority_acc : ℚ
  best_model : String
  best_model_acc : ℚ
deriving DecidableEq

/-- Characters after the last colon (the whole list when there is no
colon): `m.split(':')[-1]`. -/
def afterLastColon (l : List Char) : List Char :=
  l.foldl (fun acc c => if c = ':' then [] else acc ++ [c]) []

/-- `m.split(':')[-1] if ':' in m else m`; without a colon the split
returns the whole identifier, so the two cases coincide. -/
def shortName (m : String) : String := ⟨afterLastColon m.data⟩

/-- Does a substring occur anywhere (`needle in haystack`)? -/
def isPre : List Char → List Char → Bool
  | [], _ => true
  | _ :: _, [] => false
  | a :: as, b :: bs => a = b && isPre as bs

/-- Python `needle in haystack` for strings. -/
def hasSub (needle : List Char) : List Char → Bool
  | [] => needle.isEmpty
  | c :: rest => isPre needle (c :: rest) || hasSub needle rest

/-- `'numeric' if 'gsm8k' in dataset else 'mcq'`. -/
def evaluatorType (dataset : String) : String :=
  if hasSub ("gsm8k".data) dataset.data then "numeric" else "mcq"

/-- `r.get('evaluation', {}).get('results', {}).get(m, {})`. -/
def lookupEval (r : Run) (m : String) : EvalResult :=
  (r.evaluation.lookup m).getD {}

/-- The response filter of the resolver loops: model field equals the
full or the short identifier, and the response is not errored. -/
def respMatches (m : String) (resp : Response) : Bool :=
  (resp.model = m || resp.model = shortName m) && !resp.error

/-- First matching non-errored response of a run for a model. -/
def matchingResp (r : Run) (m : String) : Option Response :=
  r.responses.find? (respMatches m)

/-- Re-derive correctness from the raw response text: extract and
evaluate the first matching non-errored response, `false` if none. -/
def rederive (r : Run) (m : String) (et : String) : Bool :=
  match matchingResp r m with
  | some resp => evaluate_answer et resp.content r.groundTruth
  | none => false

/-- `model_correct_for_run(r, m, evaluator_type)`.  In the ambiguous
branch (`correct` stored as `False` with `predicted` null) the source
returns the re-derived verdict of the first matching response and,
when no response matches, falls through to the `correct is not None`
branch which returns the stored `False`. -/
def model_correct_for_run (r : Run) (m : String) (et : String) : Bool :=
  let er := lookupEval r m
  if er.correct = some true then true
  else if er.correct = some false ∧ er.predicted = none then
    match matchingResp r m with
    | some resp => evaluate_answer et resp.content r.groundTruth
    | none => false
  else
    match er.correct with
    | some b => b
    | none => rederive r m et

/-- `sum(len(r.get('responses', [])) for r in runs)`. -/
def totalResponses (runs : List Run) : Nat :=
  (runs.map (fun r => r.responses.length)).sum

/-- `sum(1 for r in runs for resp in ... if resp.get('error'))`. -/
def errorResponses (runs : List Run) : Nat :=
  (runs.map (fun r => r.responses.countP (fun resp => resp.error))).sum

/-- `r.get('consensus', {}).get(s, '')`. -/
def consensusAnswer (r : Run) (s : String) : String :=
  (r.consensus.lookup s).getD ""

/-- Non-errored numeric answers of a run, in encounter order
(responses without an extractable value are skipped). -/
def mechAnswersNum (r : Run) : List ℚ :=
  r.responses.filterMap
    (fun resp => if resp.error then none else extract_numeric resp.content)

/-- Non-errored multiple-choice answers of a run, in encounter order.
`extract_mcq` never returns an empty string, so the source's truthiness
test `if val:` keeps exactly the successfully extracted answers. -/
def mechAnswersMcq (r : Run) : List String :=
  r.responses.filterMap
    (fun resp => if resp.error then none else extract_mcq resp.content)

/-- `Counter(answers).most_common(1)[0][0]`: the answer with the
highest count; `Counter` preserves first-occurrence order and
`most_common` sorts stably, so ties resolve to the first-encountered
value. -/
def mcAux (cnt : α → Nat) : α → List α → α
  | best, [] => best
  | best, a :: rest => mcAux cnt (if cnt a > cnt best then a else best) rest

/-- Majority vote over a list, ties broken by first occurrence;
`none` on an empty list. -/
def mostCommon [DecidableEq α] (l : List α) : Option α :=
  match l with
  | [] => none
  | x :: rest => some (mcAux (fun a => l.count a) x rest)

/-- Correctness of a numeric mechanical-majority vote.  The source
evaluates `evaluate_answer('numeric', str(vote), gt)` where `vote` is a
float; for a float printed in plain decimal notation the extractor
recovers exactly the value, so the string round trip is modelled as the
identity on the vote.  The tolerance comparison is kept over exact
rationals here: the vote and ground-truth values these claims exercise
are exactly representable doubles, where the two semantics agree. -/
def evalNumericVote (v : ℚ) (gt : String) : Bool :=
  if gt = "" then false
  else
    match pyFloatGT gt with
    | none => false
    | some e => decide (|v - e| < (1 : ℚ) / 1000000)

/-- Mechanical-majority correctness of one run: vote over the freshly
extracted answers, correct iff the vote evaluates correct; a run with
no extractable answers counts as incorrect. -/
def mechCorrect (et : String) (r : Run) : Bool :=
  if et = "numeric" then
    match mostCommon (mechAnswersNum r) with
    | some v => evalNumericVote v r.groundTruth
    | none => false
  else if et = "mcq" then
    match mostCommon (mechAnswersMcq r) with
    | some v => evaluate_answer "mcq" v r.groundTruth
    | none => false
  else false

/-- Helper fold for `bestModel`: keep the current best, replace only on
a strictly larger value. -/
def mcAuxQ : String × ℚ → List (String × ℚ) → String × ℚ
  | best, [] => best
  | best, a :: rest => mcAuxQ (if a.2 > best.2 then a else best) rest

/-- `max(model_acc, key=model_acc.get)`: first key attaining the
maximal value, in insertion order; `none` models the `ValueError`
that `max` raises on an empty dict. -/
def bestModel : List (String × ℚ) → Option (String × ℚ)
  | [] => none
  | p :: rest => some (mcAuxQ p rest)

/-- Outcome of `load_ensemble`: `skipped` models the `return None`
branches of the quality gates, `valueError` the uncaught `ValueError`
that `max(model_acc, key=model_acc.get)` raises when the model list is
empty (the source's only `try/except` is the `float()` guard inside
`evaluate_answer`, so this exception escapes the function), and
`stats` a returned statistics record. -/
inductive LoadOutcome where
  | skipped : LoadOutcome
  | valueError : LoadOutcome
  | stats : EnsembleStats → LoadOutcome
deriving DecidableEq

/-- `load_ensemble`: quality gates (empty, error rate above 0.15, fewer
than 30 runs) then the statistics, or the uncaught `ValueError` of the
best-model selection when the model list is empty.  The float
comparison `error_responses / total_responses > 0.15` is modelled
exactly over ℚ. -/
def load_ensembleO (b : EnsembleBatch) : LoadOutcome :=
  let runs := b.runs
  let n := runs.length
  if n = 0 then LoadOutcome.skipped
  else
    let total := totalResponses runs
    let errs := errorResponses runs
    if 0 < total ∧ (15 : ℚ) / 100 < (errs : ℚ) / (total : ℚ) then LoadOutcome.skipped
    else if n < 30 then LoadOutcome.skipped
    else
      let et := evaluatorType b.dataset
      let model_acc := b.models.map
        (fun m => (m, ((runs.countP (fun r => model_correct_for_run r m et) : ℚ) / (n : ℚ)) * 100))
      let strategy_acc := b.strategies.map
        (fun s => (s, ((runs.countP (fun r => evaluate_answer et (consensusAnswer r s) r.groundTruth) : ℚ) / (n : ℚ)) * 100))
      let oracle := ((runs.countP (fun r => b.models.any (fun m => model_correct_for_run r m et)) : ℚ) / (n : ℚ)) * 100
      let mech := ((runs.countP (fun r => mechCorrect et r) : ℚ) / (n : ℚ)) * 100
      match bestModel model_acc with
      | none => LoadOutcome.valueError
      | some best =>
        LoadOutcome.stats
          { dataset := b.dataset, n := n, models := b.models,
            strategies := b.strategies, model_acc := model_acc,
            strategy_acc := strategy_acc, oracle_acc := oracle,
            mechanical_majority_acc := mech,
            best_model := best.1, best_model_acc := best.2 }

/-- The statistics record of an outcome, when one was returned. -/
def LoadOutcome.toStats : LoadOutcome → Option EnsembleStats
  | LoadOutcome.stats s => some s
  | _ => none

/-- The value the caller receives from `load_ensemble`: `some` exactly
when a statistics record is returned (a gate skip returns `None`, and
the uncaught `ValueError` produces no value at all). -/
def load_ensemble (b : EnsembleBatch) : Option EnsembleStats :=
  (load_ensembleO b).toStats

/-- The datasets the report iterates over. -/
def DATASETS : List String := ["gsm8k", "truthfulqa", "gpqa"]

/-- Per-question correctness table of the census:
model → dataset → correctness flags in run order (question index =
list position, exactly as `enumerate` produces it). -/
def PerQ : Type := List (String × List (String × List Bool))

/-- Verdict list of one model on one dataset (empty when absent). -/
def qlookup (perq : PerQ) (m ds : String) : List Bool :=
  (((perq.lookup m).getD []).lookup ds).getD []

/-- Number of questions both models have a recorded verdict for,
accumulated over all datasets (shared indices are those below both
lengths). -/
def sharedCount (perq : PerQ) (m1 m2 : String) : Nat :=
  (DATASETS.map (fun ds => min (qlookup perq m1 ds).length (qlookup perq m2 ds).length)).sum

/-- Number of shared questions on which the two verdicts differ. -/
def differCount (perq : PerQ) (m1 m2 : String) : Nat :=
  (DATASETS.map (fun ds =>
    ((qlookup perq m1 ds).zip (qlookup perq m2 ds)).countP
      (fun p => decide (p.1 ≠ p.2)))).sum

/-- Entry `(i, j)` of the complementarity matrix over the selected
model list: `0` on the diagonal, otherwise
`complementary / max(total, 1)`. -/
def compEntry (perq : PerQ) (bandA : List String) (i j : Nat) : ℚ :=
  if i = j then 0
  else
    (differCount perq (bandA.getD i "") (bandA.getD j "") : ℚ) /
      ((max (sharedCount perq (bandA.getD i "") (bandA.getD j "")) 1 : Nat) : ℚ)

/-- Modelled from the spec: the effective vote is the most frequent
canonical answer, ties broken by the first-encountered value — i.e. the
first list element whose count is maximal. -/
def specMajorityVote [DecidableEq α] (l : List α) : Option α :=
  l.find? (fun a => l.all (fun b => decide (l.count b ≤ l.count a)))

/-- A batch of 29 empty runs (below the size gate). -/
def batchA29 : EnsembleBatch := { models := ["m"], runs := List.replicate 29 {} }

/-- A batch of 30 empty runs (meets the size gate, no responses). -/
def batchA30 : EnsembleBatch := { models := ["m"], runs := List.replicate 30 {} }

/-- A batch of 31 empty runs. -/
def batchA31 : EnsembleBatch := { models := ["m"], runs := List.replicate 31 {} }

/-- A run holding `k` errored and `g` clean responses. -/
def runWithErrors (k g : Nat) : Run :=
  { responses := List.replicate k { error := true } ++ List.replicate g {} }

/-- 30 runs, 100 responses of which 16 errored: error rate 0.16. -/
def batchE16 : EnsembleBatch :=
  { models := ["m"], runs := runWithErrors 16 84 :: List.replicate 29 {} }

/-- 30 runs, 100 responses of which 15 errored: error rate exactly 0.15. -/
def batchE15 : EnsembleBatch :=
  { models := ["m"], runs := runWithErrors 15 85 :: List.replicate 29 {} }

/-- 30 response-free runs under a different model list (error-rate gate
division never evaluated). -/
def batchN30 : EnsembleBatch := { models := ["m2"], runs := List.replicate 30 {} }

/-- A run whose stored evaluation is the ambiguous
`{correct: false, predicted: null}` while the raw response is correct. -/
def runRecovery : Run :=
  { groundTruth := "B",
    responses := [{ model := "p:m", content := "B" }],
    evaluation := [("p:m", { correct := some false, predicted := none })] }

/-- 30 empty runs with one model, used to exercise the oracle bound. -/
def batchC5 : EnsembleBatch :=
  { dataset := "d5", models := ["m"], runs := List.replicate 30 {} }

/-- The statistics `load_ensemble` produces for `batchC5`. -/
def stC5 : EnsembleStats :=
  { dataset := "d5", n := 30, models := ["m"], strategies := [],
    model_acc := [("m", 0)], strategy_acc := [], oracle_acc := 0,
    mechanical_majority_acc := 0, best_model := "m", best_model_acc := 0 }

/-- 30 runs with a stored consensus answer for strategy `s1` and one
model without responses. -/
def batchC2 : EnsembleBatch :=
  { dataset := "d2", models := ["m"], strategies := ["s1"],
    runs := List.replicate 30
      ({ groundTruth := "B", consensus := [("s1", "B")] } : Run) }

/-- The statistics `load_ensemble` produces for `batchC2`. -/
def stC2 : EnsembleStats :=
  { dataset := "d2", n := 30, models := ["m"], strategies := ["s1"],
    model_acc := [("m", 0)], strategy_acc := [("s1", 100)], oracle_acc := 0,
    mechanical_majority_acc := 0, best_model := "m", best_model_acc := 0 }

/-- 30 response-free runs with an empty model list: both quality gates
pass, and the best-model `max` then raises on the empty dict. -/
def batchM0 : EnsembleBatch := { runs := List.replicate 30 {} }

/-- 31 response-free runs with an empty model list. -/
def batchM31 : EnsembleBatch := { runs := List.replicate 31 {} }

/-- Three numeric responses "7", "9", "7" with ground truth 7. -/
def runNum779 : Run :=
  { groundTruth := "7",
    responses := [{ content := "7" }, { content := "9" }, { content := "7" }] }

/-- A 1–1 tie between "A" and "B" with ground truth "B". -/
def runTieAB : Run :=
  { groundTruth := "B",
    responses := [{ content := "A" }, { content := "B" }] }

/-- A run with no extractable answers. -/
def runNoAns : Run := {}

/-- Census table on which two models agree on every shared question. -/
def perqTwin : PerQ :=
  [("m1", [("gsm8k", [true, false, true])]),
   ("m2", [("gsm8k", [true, false])])]

/-! ### General helper lemmas -/

theorem lookup_map_self {β : Type} (f : String → β) {s : String} :
    ∀ {l : List String}, s ∈ l →
      (l.map (fun x => (x, f x))).lookup s = some (f s) := by
  intro l h
  induction l with
  | nil => cases h
  | cons a as ih =>
    by_cases hs : s = a
    · subst hs
      simp [List.lookup]
    · have hne : (s == a) = false := by simp [hs]
      have hm : s ∈ as := by
        rcases List.mem_cons.mp h with h1 | h1
        · exact absurd h1 hs
        · exact h1
      simpa [List.lookup, hne] using ih hm

/-! ### C1 / C10: the quality gates of load_ensemble -/

/-- C1 (corrected): the aggregator returns a result iff the batch
passes both quality gates — at least 30 runs, and (when there are
responses at all) an errored-response fraction at most 0.15 — AND its
model list is nonempty: on a gate-passing batch without models the
best-model `max` raises an uncaught `ValueError`, so the gates-only
equivalence of the claim fails.  Boundary cases: 29 runs are rejected,
30 accepted, an error fraction 0.16 rejected and exactly 0.15
accepted. -/
theorem load_ensemble_gate_characterization :
    (∀ b : EnsembleBatch,
      (load_ensemble b).isSome = true ↔
        (30 ≤ b.runs.length ∧
          (0 < totalResponses b.runs →
            (errorResponses b.runs : ℚ) / (totalResponses b.runs : ℚ) ≤ 15 / 100) ∧
          b.models ≠ [])) ∧
    load_ensemble batchA29 = none ∧
    (load_ensemble batchA30).isSome = true ∧
    load_ensemble batchE16 = none ∧
    (load_ensemble batchE15).isSome = true := by
  have hiff : ∀ b : EnsembleBatch,
      (load_ensemble b).isSome = true ↔
        (30 ≤ b.runs.length ∧
          (0 < totalResponses b.runs →
            (errorResponses b.runs : ℚ) / (totalResponses b.runs : ℚ) ≤ 15 / 100) ∧
          b.models ≠ []) := by
    intro b
    simp only [load_ensemble, load_ensembleO]
    split_ifs with h0 h1 h2
    · simp only [LoadOutcome.toStats, Option.isSome_none, Bool.false_eq_true, false_iff]
      rintro ⟨h30, -, -⟩
      omega
    · simp only [LoadOutcome.toStats, Option.isSome_none, Bool.false_eq_true, false_iff]
      rintro ⟨h30, himp, -⟩
      have := himp h1.1
      linarith [h1.2]
    · simp only [LoadOutcome.toStats, Option.isSome_none, Bool.false_eq_true, false_iff]
      rintro ⟨h30, -, -⟩
      omega
    · cases hml : b.models with
      | nil =>
        simp only [hml, List.map_nil, bestModel, LoadOutcome.toStats]
        simp only [Option.isSome_none, Bool.false_eq_true, false_iff]
        rintro ⟨-, -, hne⟩
        exact hne rfl
      | cons m ms =>
        simp only [hml, List.map_cons, bestModel, LoadOutcome.toStats]
        simp only [Option.isSome_some, true_iff]
        push_neg at h1
        exact ⟨by omega, h1, by simp⟩
  refine ⟨hiff, ?_, ?_, ?_, ?_⟩
  · rw [← Option.not_isSome_iff_eq_none, hiff batchA29]
    rintro ⟨h30, -, -⟩
    have h29 : batchA29.runs.length = 29 := by decide
    omega
  · exact (hiff batchA30).mpr ⟨by decide, fun h => absurd h (by decide), by decide⟩
  · rw [← Option.not_isSome_iff_eq_none, hiff batchE16]
    rintro ⟨-, himp, -⟩
    have h1 : totalResponses batchE16.runs = 100 := by decide
    have h2 : errorResponses batchE16.runs = 16 := by decide
    rw [h1, h2] at himp
    have := himp (by norm_num)
    norm_num at this
  · refine (hiff batchE15).mpr ⟨by decide, fun h => ?_, by decide⟩
    have h1 : totalResponses batchE15.runs = 100 := by decide
    have h2 : errorResponses batchE15.runs = 15 := by decide
    rw [h1, h2]
    norm_num

/-- C1 witness: the characterization applied to a concrete batch. -/
theorem load_ensemble_gate_characterization_witness :
    (load_ensemble batchA31).isSome = true :=
  (load_ensemble_gate_characterization.1 batchA31).mpr
    ⟨by decide, fun h => absurd h (by decide), by decide⟩

/-- C1 counterexample: a batch that passes both quality gates (30 runs,
no responses at all) but has an empty model list gets no result — the
best-model selection raises an uncaught `ValueError` instead of
returning the record the claim's gates-only equivalence promises. -/
theorem load_ensemble_gate_characterization_cex :
    30 ≤ batchM0.runs.length ∧
    totalResponses batchM0.runs = 0 ∧
    load_ensembleO batchM0 = LoadOutcome.valueError ∧
    load_ensemble batchM0 = none := by
  refine ⟨by decide, by decide, ?_, ?_⟩
  · simp only [load_ensembleO]
    rw [if_neg (by decide), if_neg ?hnum, if_neg (by decide)]
    case hnum =>
      rintro ⟨hpos, -⟩
      exact absurd hpos (by decide)
    rfl
  · simp only [load_ensemble, load_ensembleO]
    rw [if_neg (by decide), if_neg ?hnum2, if_neg (by decide)]
    case hnum2 =>
      rintro ⟨hpos, -⟩
      exact absurd hpos (by decide)
    rfl

/-- C10 (corrected): a batch with at least 30 runs and zero responses
in total is never rejected by the quality gates — the error-rate gate
only divides when the response count is positive — and it is accepted
whenever its model list is nonempty; with an empty model list the
program passes the gates and then raises an uncaught `ValueError` in
the best-model selection, so the claim's unconditional acceptance
fails. -/
theorem error_gate_skips_response_free_batches :
    ∀ b : EnsembleBatch, 30 ≤ b.runs.length → totalResponses b.runs = 0 →
      load_ensembleO b ≠ LoadOutcome.skipped ∧
      (b.models ≠ [] → (load_ensemble b).isSome = true) := by
  intro b h30 htot
  simp only [load_ensemble, load_ensembleO]
  split_ifs with h0 h1 h2
  · exact absurd h30 (by omega)
  · rw [htot] at h1
    exact absurd h1.1 (by omega)
  · exact absurd h30 (by omega)
  · cases hml : b.models with
    | nil =>
      simp only [hml, List.map_nil, bestModel, LoadOutcome.toStats]
      exact ⟨fun h => (nomatch h), fun hne => absurd rfl hne⟩
    | cons m ms =>
      simp only [hml, List.map_cons, bestModel, LoadOutcome.toStats]
      exact ⟨fun h => (nomatch h), fun _ => rfl⟩

/-- C10 witness: 30 response-free runs with one model are accepted. -/
theorem error_gate_skips_response_free_batches_witness :
    load_ensembleO batchN30 ≠ LoadOutcome.skipped ∧
    (load_ensemble batchN30).isSome = true := by
  have h := error_gate_skips_response_free_batches batchN30 (by decide) (by decide)
  exact ⟨h.1, h.2 (by decide)⟩

/-- C10 counterexample: 31 response-free runs with an empty model list
pass both quality gates (so the error-rate gate never rejects them),
yet the aggregator does not accept the batch — the best-model `max`
raises an uncaught `ValueError` and no result is returned. -/
theorem error_gate_skips_response_free_batches_cex :
    30 ≤ batchM31.runs.length ∧
    totalResponses batchM31.runs = 0 ∧
    load_ensembleO batchM31 = LoadOutcome.valueError ∧
    load_ensemble batchM31 = none := by
  refine ⟨by decide, by decide, ?_, ?_⟩
  · simp only [load_ensembleO]
    rw [if_neg (by decide), if_neg ?hnum3, if_neg (by decide)]
    case hnum3 =>
      rintro ⟨hpos, -⟩
      exact absurd hpos (by decide)
    rfl
  · simp only [load_ensemble, load_ensembleO]
    rw [if_neg (by decide), if_neg ?hnum4, if_neg (by decide)]
    case hnum4 =>
      rintro ⟨hpos, -⟩
      exact absurd hpos (by decide)
    rfl

/-! ### C3: the correctness resolver -/

/-- C3: the resolver trusts a stored boolean verdict except in the
ambiguous shape `{correct: false, predicted: null}`, where it
re-derives the verdict from the first matching non-errored response
(false when none exists); a stored `true` short-circuits first. -/
theorem resolver_trust_and_recovery :
    ∀ (r : Run) (m et : String),
      ((lookupEval r m).correct = some false → (lookupEval r m).predicted = none →
        model_correct_for_run r m et = rederive r m et) ∧
      ((lookupEval r m).correct = some true → model_correct_for_run r m et = true) ∧
      (∀ bv : Bool, (lookupEval r m).correct = some bv →
        ((lookupEval r m).predicted ≠ none ∨ bv = true) →
        model_correct_for_run r m et = bv) := by
  intro r m et
  refine ⟨?_, ?_, ?_⟩
  · intro h1 h2
    simp only [model_correct_for_run, rederive, h1, h2]
    rw [if_neg (by decide), if_pos (by simp)]
  · intro h1
    simp [model_correct_for_run, h1]
  · rintro bv h1 (h2 | rfl)
    · cases bv with
      | true => simp [model_correct_for_run, h1]
      | false =>
        simp only [model_correct_for_run, h1]
        simp [h2]
    · simp [model_correct_for_run, h1]

/-- C3 witness: the recovery path overrides a stored false verdict when
the raw response evaluates correct. -/
theorem resolver_trust_and_recovery_witness :
    model_correct_for_run runRecovery "p:m" "mcq" = rederive runRecovery "p:m" "mcq" ∧
    rederive runRecovery "p:m" "mcq" = true :=
  ⟨(resolver_trust_and_recovery runRecovery "p:m" "mcq").1 (by decide) (by decide),
   by decide⟩

/-! ### C5: oracle accuracy dominates every per-model accuracy -/

/-- C5: on every accepted batch, the oracle accuracy is at least the
accuracy of each individual model of the model list. -/
theorem oracle_bounds_each_model :
    ∀ (b : EnsembleBatch) (st : EnsembleStats) (m : String) (a : ℚ),
      load_ensemble b = some st → (m, a) ∈ st.model_acc → a ≤ st.oracle_acc := by
  intro b st m a hload hmem
  simp only [load_ensemble, load_ensembleO] at hload
  split_ifs at hload with h0 h1 h2
  · exact absurd hload (by simp [LoadOutcome.toStats])
  · exact absurd hload (by simp [LoadOutcome.toStats])
  · exact absurd hload (by simp [LoadOutcome.toStats])
  split at hload
  · exact absurd hload (by simp [LoadOutcome.toStats])
  simp only [LoadOutcome.toStats, Option.some.injEq] at hload
  subst hload
  simp only [List.mem_map] at hmem
  obtain ⟨m', hm', heq⟩ := hmem
  obtain ⟨rfl, rfl⟩ := Prod.mk.injEq .. ▸ heq
  have hcount :
      b.runs.countP (fun r => model_correct_for_run r m' (evaluatorType b.dataset)) ≤
        b.runs.countP (fun r =>
          b.models.any (fun mm => model_correct_for_run r mm (evaluatorType b.dataset))) := by
    refine List.countP_mono_left (fun r _ hr => ?_)
    exact List.any_eq_true.mpr ⟨m', hm', hr⟩
  have hn : (0 : ℚ) < (b.runs.length : ℚ) := by
    exact_mod_cast Nat.pos_of_ne_zero h0
  have hdiv :
      ((b.runs.countP (fun r => model_correct_for_run r m' (evaluatorType b.dataset)) : ℚ) /
          (b.runs.length : ℚ)) ≤
        ((b.runs.countP (fun r =>
            b.models.any (fun mm => model_correct_for_run r mm (evaluatorType b.dataset))) : ℚ) /
          (b.runs.length : ℚ)) := by
    apply div_le_div_of_nonneg_right ?_ hn.le
    exact_mod_cast hcount
  calc ((b.runs.countP (fun r => model_correct_for_run r m' (evaluatorType b.dataset)) : ℚ) /
          (b.runs.length : ℚ)) * 100
      ≤ ((b.runs.countP (fun r =>
            b.models.any (fun mm => model_correct_for_run r mm (evaluatorType b.dataset))) : ℚ) /
          (b.runs.length : ℚ)) * 100 := by linarith
    _ = _ := rfl

/-- Evaluation of `load_ensemble` on the concrete batch `batchC5`. -/
theorem load_batchC5_eq : load_ensemble batchC5 = some stC5 := by
  simp only [load_ensemble, load_ensembleO]
  split_ifs with h0 h1 h2
  · exact absurd h0 (by decide)
  · exfalso
    have : totalResponses batchC5.runs = 0 := by decide
    rw [this] at h1
    exact absurd h1.1 (by omega)
  · exact absurd h2 (by decide)
  · have hc1 : batchC5.runs.countP
        (fun r => model_correct_for_run r "m" (evaluatorType batchC5.dataset)) = 0 := by decide
    have hc2 : batchC5.runs.countP
        (fun r => batchC5.models.any
          (fun mm => model_correct_for_run r mm (evaluatorType batchC5.dataset))) = 0 := by decide
    have hc3 : batchC5.runs.countP
        (fun r => mechCorrect (evaluatorType batchC5.dataset) r) = 0 := by decide
    have hlen : batchC5.runs.length = 30 := by decide
    have hmodels : batchC5.models = ["m"] := by decide
    simp only [hmodels, List.map_cons, List.map_nil, hlen, hc1, hc2, hc3, bestModel, mcAuxQ,
      LoadOutcome.toStats]
    norm_num [stC5, batchC5]
    decide

/-- C5 witness: the oracle bound applied to a concrete accepted batch. -/
theorem oracle_bounds_each_model_witness : (0 : ℚ) ≤ stC5.oracle_acc :=
  oracle_bounds_each_model batchC5 stC5 "m" 0 load_batchC5_eq (by simp [stC5])

/-! ### C2: per-strategy accuracy evaluates the stored consensus -/

/-- C2: on every accepted batch the per-strategy accuracy counts
exactly the runs whose stored consensus answer for that strategy,
passed unchanged to the evaluator against the ground truth, is correct
(no separate extraction step is applied before the call). -/
theorem strategy_accuracy_uses_stored_consensus :
    ∀ (b : EnsembleBatch) (st : EnsembleStats) (s : String),
      load_ensemble b = some st → s ∈ b.strategies →
        st.strategy_acc.lookup s =
          some (((b.runs.countP (fun r =>
              evaluate_answer (evaluatorType b.dataset) (consensusAnswer r s) r.groundTruth) : ℚ) /
            (b.runs.length : ℚ)) * 100) := by
  intro b st s hload hs
  simp only [load_ensemble, load_ensembleO] at hload
  split_ifs at hload with h0 h1 h2
  · exact absurd hload (by simp [LoadOutcome.toStats])
  · exact absurd hload (by simp [LoadOutcome.toStats])
  · exact absurd hload (by simp [LoadOutcome.toStats])
  split at hload
  · exact absurd hload (by simp [LoadOutcome.toStats])
  simp only [LoadOutcome.toStats, Option.some.injEq] at hload
  subst hload
  exact lookup_map_self
    (fun s => ((b.runs.countP (fun r =>
        evaluate_answer (evaluatorType b.dataset) (consensusAnswer r s) r.groundTruth) : ℚ) /
      (b.runs.length : ℚ)) * 100) hs

/-- Evaluation of `load_ensemble` on the concrete batch `batchC2`. -/
theorem load_batchC2_eq : load_ensemble batchC2 = some stC2 := by
  simp only [load_ensemble, load_ensembleO]
  split_ifs with h0 h1 h2
  · exact absurd h0 (by decide)
  · exfalso
    have : totalResponses batchC2.runs = 0 := by decide
    rw [this] at h1
    exact absurd h1.1 (by omega)
  · exact absurd h2 (by decide)
  · have hc0 : batchC2.runs.countP
        (fun r => model_correct_for_run r "m" (evaluatorType batchC2.dataset)) = 0 := by decide
    have hc1 : batchC2.runs.countP
        (fun r => batchC2.models.any
          (fun mm => model_correct_for_run r mm (evaluatorType batchC2.dataset))) = 0 := by decide
    have hc2 : batchC2.runs.countP
        (fun r => mechCorrect (evaluatorType batchC2.dataset) r) = 0 := by decide
    have hc3 : batchC2.runs.countP
        (fun r => evaluate_answer (evaluatorType batchC2.dataset)
          (consensusAnswer r "s1") r.groundTruth) = 30 := by decide
    have hlen : batchC2.runs.length = 30 := by decide
    have hstr : batchC2.strategies = ["s1"] := by decide
    have hmodels : batchC2.models = ["m"] := by decide
    simp only [hmodels, hstr, List.map_cons, List.map_nil, hlen, hc0, hc1, hc2, hc3, bestModel,
      mcAuxQ, LoadOutcome.toStats]
    norm_num [stC2, batchC2]
    decide

/-- C2 witness: the per-strategy accuracy formula on a concrete batch. -/
theorem strategy_accuracy_uses_stored_consensus_witness :
    stC2.strategy_acc.lookup "s1" =
      some (((batchC2.runs.countP (fun r =>
          evaluate_answer (evaluatorType batchC2.dataset) (consensusAnswer r "s1") r.groundTruth) : ℚ) /
        (batchC2.runs.length : ℚ)) * 100) :=
  strategy_accuracy_uses_stored_consensus batchC2 stC2 "s1" load_batchC2_eq (by decide)

/-! ### C9: complementarity matrix entries -/

theorem differCount_le_sharedCount (perq : PerQ) (m1 m2 : String) :
    differCount perq m1 m2 ≤ sharedCount perq m1 m2 := by
  simp only [differCount, sharedCount, DATASETS, List.map_cons, List.map_nil,
    List.sum_cons, List.sum_nil]
  have h : ∀ ds : String,
      ((qlookup perq m1 ds).zip (qlookup perq m2 ds)).countP (fun p => decide (p.1 ≠ p.2)) ≤
        min (qlookup perq m1 ds).length (qlookup perq m2 ds).length := by
    intro ds
    calc ((qlookup perq m1 ds).zip (qlookup perq m2 ds)).countP (fun p => decide (p.1 ≠ p.2))
        ≤ ((qlookup perq m1 ds).zip (qlookup perq m2 ds)).length := List.countP_le_length _
      _ = _ := List.length_zip ..
  have h1 := h "gsm8k"
  have h2 := h "truthfulqa"
  have h3 := h "gpqa"
  omega

/-- C9: for distinct selected models the matrix entry is the number of
shared questions with differing verdicts divided by the number of
shared questions (zero when none are shared); diagonal entries are
zero; and models whose verdicts agree on every shared question get
entry zero. -/
theorem complementarity_entry_rules :
    ∀ (perq : PerQ) (bandA : List String) (i j : Nat),
      compEntry perq bandA i i = 0 ∧
      (i ≠ j → sharedCount perq (bandA.getD i "") (bandA.getD j "") = 0 →
        compEntry perq bandA i j = 0) ∧
      (i ≠ j → 0 < sharedCount perq (bandA.getD i "") (bandA.getD j "") →
        compEntry perq bandA i j =
          (differCount perq (bandA.getD i "") (bandA.getD j "") : ℚ) /
            (sharedCount perq (bandA.getD i "") (bandA.getD j "") : ℚ)) ∧
      (i ≠ j →
        (∀ ds ∈ DATASETS,
          ((qlookup perq (bandA.getD i "") ds).zip (qlookup perq (bandA.getD j "") ds)).all
            (fun p => p.1 == p.2) = true) →
        compEntry perq bandA i j = 0) := by
  intro perq bandA i j
  refine ⟨by simp [compEntry], ?_, ?_, ?_⟩
  · intro hij hsh
    have hd : differCount perq (bandA.getD i "") (bandA.getD j "") = 0 := by
      have := differCount_le_sharedCount perq (bandA.getD i "") (bandA.getD j "")
      omega
    unfold compEntry
    rw [if_neg hij, hd]
    simp
  · intro hij hsh
    have hmax : max (sharedCount perq (bandA.getD i "") (bandA.getD j "")) 1 =
        sharedCount perq (bandA.getD i "") (bandA.getD j "") :=
      Nat.max_eq_left (by omega)
    unfold compEntry
    rw [if_neg hij, hmax]
  · intro hij hall
    have hd : differCount perq (bandA.getD i "") (bandA.getD j "") = 0 := by
      simp only [differCount]
      have hz : ∀ ds ∈ DATASETS,
          ((qlookup perq (bandA.getD i "") ds).zip (qlookup perq (bandA.getD j "") ds)).countP
            (fun p => decide (p.1 ≠ p.2)) = 0 := by
        intro ds hds
        refine List.countP_eq_zero.mpr (fun p hp => ?_)
        have := List.all_eq_true.mp (hall ds hds) p hp
        simp only [beq_iff_eq] at this
        simp [this]
      simp only [DATASETS, List.map_cons, List.map_nil, List.sum_cons, List.sum_nil]
      rw [hz "gsm8k" (by simp [DATASETS]), hz "truthfulqa" (by simp [DATASETS]),
        hz "gpqa" (by simp [DATASETS])]
      rfl
    unfold compEntry
    rw [if_neg hij, hd]
    simp

/-- C9 witness: two models with identical verdicts on every shared
question get entry 0. -/
theorem complementarity_entry_rules_witness :
    compEntry perqTwin ["m1", "m2"] 0 1 = 0 :=
  (complementarity_entry_rules perqTwin ["m1", "m2"] 0 1).2.2.2 (by decide) (by decide)

/-! ### C6: numeric correctness evaluation -/

theorem pow2Z_pos (k : ℤ) : 0 < pow2Z k := zpow_pos (by norm_num) k

theorem pow2Z_mono {a b : ℤ} (h : a ≤ b) : pow2Z a ≤ pow2Z b :=
  zpow_le_zpow_right₀ (by norm_num) h

theorem expSearch_eq (q : ℚ) (e : ℤ) (h1 : pow2Z e ≤ q) (h2 : q < pow2Z (e + 1)) :
    ∀ (f : Nat) (c : ℤ), (c - e).natAbs ≤ f → expSearch f q c = e := by
  intro f
  induction f with
  | zero =>
    intro c hc
    have hce : c = e := by omega
    rw [hce]
    rfl
  | succ f ih =>
    intro c hc
    rcases lt_trichotomy c e with hlt | heq | hgt
    · have hcle : pow2Z c ≤ q := le_trans (pow2Z_mono (by omega)) h1
      have hc1 : pow2Z (c + 1) ≤ q := le_trans (pow2Z_mono (by omega)) h1
      simp only [expSearch]
      rw [if_neg (not_lt.mpr hcle), if_pos hc1]
      exact ih (c + 1) (by omega)
    · rw [heq]
      simp only [expSearch]
      rw [if_neg (not_lt.mpr h1), if_neg (not_le.mpr h2)]
    · have hq : q < pow2Z c := lt_of_lt_of_le h2 (pow2Z_mono (by omega))
      simp only [expSearch]
      rw [if_pos hq]
      exact ih (c - 1) (by omega)

theorem dblExp_eq (q : ℚ) (e : ℤ) (h1 : pow2Z e ≤ q) (h2 : q < pow2Z (e + 1))
    (hr : e.natAbs ≤ 1200) : dblExp q = e :=
  expSearch_eq q e h1 h2 1200 0 (by omega)

theorem roundHalfEven_eq_floor {x : ℚ} {f : ℤ} (h1 : (f : ℚ) ≤ x) (h2 : x - f < 1 / 2) :
    roundHalfEven x = f := by
  have hf : ⌊x⌋ = f := Int.floor_eq_iff.mpr ⟨h1, by linarith⟩
  simp only [roundHalfEven, hf]
  rw [if_pos h2]

theorem roundDouble_eq_pos (q : ℚ) (E m : ℤ) (hq : 0 < q)
    (h1 : pow2Z E ≤ q) (h2 : q < pow2Z (E + 1)) (hr : E.natAbs ≤ 1200)
    (hm : (m : ℚ) ≤ q / pow2Z (E - 52)) (hm2 : q / pow2Z (E - 52) - m < 1 / 2) :
    roundDouble q = m * pow2Z (E - 52) := by
  have habs : |q| = q := abs_of_pos hq
  simp only [roundDouble, habs]
  rw [if_neg (ne_of_gt hq), if_neg (not_lt.mpr hq.le), dblExp_eq q E h1 h2 hr,
    roundHalfEven_eq_floor hm hm2]

theorem pow2Z_zero : pow2Z 0 = 1 := by norm_num [pow2Z]

theorem pow2Z_one : pow2Z 1 = 2 := by norm_num [pow2Z]

theorem pow2Z_neg52 : pow2Z (-52) = 1 / 4503599627370496 := by
  norm_num [pow2Z]

theorem pow2Z_neg20 : pow2Z (-20) = 1 / 1048576 := by
  norm_num [pow2Z]

theorem pow2Z_neg19 : pow2Z (-19) = 1 / 524288 := by
  norm_num [pow2Z]

theorem pow2Z_neg72 : pow2Z (-72) = 1 / 4722366482869645213696 := by
  norm_num [pow2Z]

theorem roundDouble_zero : roundDouble 0 = 0 := by simp [roundDouble]

/-- `float("1")` is exact. -/
theorem roundDouble_one : roundDouble 1 = 1 := by
  have h := roundDouble_eq_pos 1 0 4503599627370496 (by norm_num)
    (by rw [pow2Z_zero]) (by rw [show (0 : ℤ) + 1 = 1 by norm_num, pow2Z_one]; norm_num)
    (by norm_num)
    (by rw [show (0 : ℤ) - 52 = -52 by norm_num, pow2Z_neg52]; norm_num)
    (by rw [show (0 : ℤ) - 52 = -52 by norm_num, pow2Z_neg52]; norm_num)
  rw [h, show (0 : ℤ) - 52 = -52 by norm_num, pow2Z_neg52]
  norm_num

/-- `float("1.000001")` rounds DOWN: the nearest double sits below the
decimal value, a whisker less than `1e-6` above `1.0`. -/
theorem roundDouble_1000001 :
    roundDouble (1000001 / 1000000) = 4503604130970123 / 4503599627370496 := by
  have h := roundDouble_eq_pos (1000001 / 1000000) 0 4503604130970123 (by norm_num)
    (by rw [pow2Z_zero]; norm_num)
    (by rw [show (0 : ℤ) + 1 = 1 by norm_num, pow2Z_one]; norm_num)
    (by norm_num)
    (by rw [show (0 : ℤ) - 52 = -52 by norm_num, pow2Z_neg52]; norm_num)
    (by rw [show (0 : ℤ) - 52 = -52 by norm_num, pow2Z_neg52]; norm_num)
  rw [h, show (0 : ℤ) - 52 = -52 by norm_num, pow2Z_neg52]
  norm_num

/-- `float("1.0000009999")`. -/
theorem roundDouble_9999 :
    roundDouble (10000009999 / 10000000000) = 4503604130519763 / 4503599627370496 := by
  have h := roundDouble_eq_pos (10000009999 / 10000000000) 0 4503604130519763 (by norm_num)
    (by rw [pow2Z_zero]; norm_num)
    (by rw [show (0 : ℤ) + 1 = 1 by norm_num, pow2Z_one]; norm_num)
    (by norm_num)
    (by rw [show (0 : ℤ) - 52 = -52 by norm_num, pow2Z_neg52]; norm_num)
    (by rw [show (0 : ℤ) - 52 = -52 by norm_num, pow2Z_neg52]; norm_num)
  rw [h, show (0 : ℤ) - 52 = -52 by norm_num, pow2Z_neg52]
  norm_num

/-- The double nearest `1e-6`, as a plain fraction. -/
theorem eps64_eq : eps64 = 4722366482869645 / 4722366482869645213696 := by
  have h := roundDouble_eq_pos (1 / 1000000) (-20) 4722366482869645 (by norm_num)
    (by rw [pow2Z_neg20]; norm_num)
    (by rw [show (-20 : ℤ) + 1 = -19 by norm_num, pow2Z_neg19]; norm_num)
    (by norm_num)
    (by rw [show (-20 : ℤ) - 52 = -72 by norm_num, pow2Z_neg72]; norm_num)
    (by rw [show (-20 : ℤ) - 52 = -72 by norm_num, pow2Z_neg72]; norm_num)
  rw [eps64, h, show (-20 : ℤ) - 52 = -72 by norm_num, pow2Z_neg72]
  norm_num

/-- `float("1.000001") - float("1")` is a 33-bit difference, so the
IEEE subtraction is exact. -/
theorem roundDouble_diff1 :
    roundDouble (4503599627 / 4503599627370496) = 4503599627 / 4503599627370496 := by
  have h := roundDouble_eq_pos (4503599627 / 4503599627370496) (-20) 4722366482481152
    (by norm_num)
    (by rw [pow2Z_neg20]; norm_num)
    (by rw [show (-20 : ℤ) + 1 = -19 by norm_num, pow2Z_neg19]; norm_num)
    (by norm_num)
    (by rw [show (-20 : ℤ) - 52 = -72 by norm_num, pow2Z_neg72]; norm_num)
    (by rw [show (-20 : ℤ) - 52 = -72 by norm_num, pow2Z_neg72]; norm_num)
  rw [h, show (-20 : ℤ) - 52 = -72 by norm_num, pow2Z_neg72]
  norm_num

/-- `float("1.0000009999") - float("1")` is likewise exact. -/
theorem roundDouble_diff2 :
    roundDouble (4503149267 / 4503599627370496) = 4503149267 / 4503599627370496 := by
  have h := roundDouble_eq_pos (4503149267 / 4503599627370496) (-20) 4721894245793792
    (by norm_num)
    (by rw [pow2Z_neg20]; norm_num)
    (by rw [show (-20 : ℤ) + 1 = -19 by norm_num, pow2Z_neg19]; norm_num)
    (by norm_num)
    (by rw [show (-20 : ℤ) - 52 = -72 by norm_num, pow2Z_neg72]; norm_num)
    (by rw [show (-20 : ℤ) - 52 = -72 by norm_num, pow2Z_neg72]; norm_num)
  rw [h, show (-20 : ℤ) - 52 = -72 by norm_num, pow2Z_neg72]
  norm_num

/-- The double `1e-6` is a fixed point of the rounding. -/
theorem roundDouble_eps :
    roundDouble (4722366482869645 / 4722366482869645213696) =
      4722366482869645 / 4722366482869645213696 := by
  have h := roundDouble_eq_pos (4722366482869645 / 4722366482869645213696) (-20)
    4722366482869645 (by norm_num)
    (by rw [pow2Z_neg20]; norm_num)
    (by rw [show (-20 : ℤ) + 1 = -19 by norm_num, pow2Z_neg19]; norm_num)
    (by norm_num)
    (by rw [show (-20 : ℤ) - 52 = -72 by norm_num, pow2Z_neg72]; norm_num)
    (by rw [show (-20 : ℤ) - 52 = -72 by norm_num, pow2Z_neg72]; norm_num)
  rw [h, show (-20 : ℤ) - 52 = -72 by norm_num, pow2Z_neg72]
  norm_num

theorem extractNum_1000001 : extract_numeric "1.000001" = some (1000001 / 1000000) := by
  simp [extract_numeric, searchFirst, p1At, p2At, p3At, cueMatchCI,
    numAfterCue, numTokenAt, numTokenCore, dotTail, skipDollar, starStar, findNumTokens,
    findNumTokensF, parseTok, parseFloatCore, parseUnsignedQ, digitsToNat, isNumMid, isPySpace]
  norm_num

theorem extractNum_9999 :
    extract_numeric "1.0000009999" = some (10000009999 / 10000000000) := by
  simp [extract_numeric, searchFirst, p1At, p2At, p3At, cueMatchCI,
    numAfterCue, numTokenAt, numTokenCore, dotTail, skipDollar, starStar, findNumTokens,
    findNumTokensF, parseTok, parseFloatCore, parseUnsignedQ, digitsToNat, isNumMid, isPySpace]
  norm_num

theorem extractNum_small : extract_numeric "0.000001" = some (1 / 1000000) := by
  simp [extract_numeric, searchFirst, p1At, p2At, p3At, cueMatchCI,
    numAfterCue, numTokenAt, numTokenCore, dotTail, skipDollar, starStar, findNumTokens,
    findNumTokensF, parseTok, parseFloatCore, parseUnsignedQ, digitsToNat, isNumMid, isPySpace]
  norm_num

theorem pyFloatGT_one : pyFloatGT "1" = some 1 := by
  simp [pyFloatGT, stripWS, isPySpace, parseFloatCore, parseUnsignedQ, digitsToNat]

theorem pyFloatGT_zero : pyFloatGT "0" = some 0 := by
  simp [pyFloatGT, stripWS, isPySpace, parseFloatCore, parseUnsignedQ, digitsToNat]

/-- "1.000001" against "1": the doubles differ by slightly LESS than
the double `1e-6`, so the strict comparison succeeds and the evaluator
answers true, although the decimal difference is exactly `1e-6`. -/
theorem evalNum_1000001 : evaluate_answer "numeric" "1.000001" "1" = true := by
  simp only [evaluate_answer]
  rw [if_neg (by decide), if_pos trivial, pyFloatGT_one, extractNum_1000001]
  show decide
    (|roundDouble (roundDouble ((1000001 : ℚ) / 1000000) - roundDouble 1)| < eps64) = true
  simp only [decide_eq_true_eq]
  rw [roundDouble_1000001, roundDouble_one,
    show (4503604130970123 : ℚ) / 4503599627370496 - 1 = 4503599627 / 4503599627370496 by
      norm_num,
    roundDouble_diff1, eps64_eq, abs_of_nonneg (by norm_num)]
  norm_num

/-- "0.000001" against "0": the computed difference IS the double
`1e-6`, and the strict comparison rejects it. -/
theorem evalNum_small : evaluate_answer "numeric" "0.000001" "0" = false := by
  simp only [evaluate_answer]
  rw [if_neg (by decide), if_pos trivial, pyFloatGT_zero, extractNum_small]
  show decide
    (|roundDouble (roundDouble ((1 : ℚ) / 1000000) - roundDouble 0)| < eps64) = false
  rw [roundDouble_zero, sub_zero, show roundDouble ((1 : ℚ) / 1000000) = eps64 from rfl]
  simp only [decide_eq_false_iff_not]
  rw [eps64_eq, roundDouble_eps, abs_of_nonneg (by norm_num)]
  norm_num

/-- "1.0000009999" against "1" is within tolerance. -/
theorem evalNum_9999 : evaluate_answer "numeric" "1.0000009999" "1" = true := by
  simp only [evaluate_answer]
  rw [if_neg (by decide), if_pos trivial, pyFloatGT_one, extractNum_9999]
  show decide
    (|roundDouble (roundDouble ((10000009999 : ℚ) / 10000000000) - roundDouble 1)| < eps64)
      = true
  simp only [decide_eq_true_eq]
  rw [roundDouble_9999, roundDouble_one,
    show (4503604130519763 : ℚ) / 4503599627370496 - 1 = 4503149267 / 4503599627370496 by
      norm_num,
    roundDouble_diff2, eps64_eq, abs_of_nonneg (by norm_num)]
  norm_num

/-- C6 (corrected): numeric evaluation is true iff answer and ground
truth are non-empty, both parse (the ground truth after comma
stripping), and the IEEE-rounded difference of the two parsed doubles
is strictly below the double nearest 1e-6.  The claimed exact-1e-6
boundary does not hold for decimal differences: "1.000001" against "1"
(decimal difference exactly 1e-6) evaluates TRUE, because both values
round to doubles whose difference falls below the tolerance; the strict
rejection shows only when the computed double difference equals the
double 1e-6 itself, as for "0.000001" against "0".  A difference of
0.9999e-6 is true; unparseable ground truth and empty inputs give
false. -/
theorem numeric_eval_tolerance :
    (∀ a g : String, evaluate_answer "numeric" a g = true ↔
      a ≠ "" ∧ g ≠ "" ∧ ∃ p e : ℚ, extract_numeric a = some p ∧ pyFloatGT g = some e ∧
        |roundDouble (roundDouble p - roundDouble e)| < eps64) ∧
    evaluate_answer "numeric" "1.000001" "1" = true ∧
    evaluate_answer "numeric" "0.000001" "0" = false ∧
    evaluate_answer "numeric" "1.0000009999" "1" = true ∧
    evaluate_answer "numeric" "5" "abc" = false ∧
    evaluate_answer "numeric" "" "7" = false ∧
    evaluate_answer "numeric" "7" "" = false := by
  refine ⟨?_, evalNum_1000001, evalNum_small, evalNum_9999, ?_, by decide, by decide⟩
  · intro a g
    by_cases ha : a = ""
    · subst ha
      simp [evaluate_answer]
    by_cases hg : g = ""
    · subst hg
      simp [evaluate_answer]
    simp only [evaluate_answer]
    rw [if_neg (by simp [ha, hg])]
    rw [if_pos trivial]
    cases hG : pyFloatGT g with
    | none => simp [ha, hg, hG]
    | some e =>
      cases hE : extract_numeric a with
      | none => simp [ha, hg, hE]
      | some p => simp [ha, hg, hE, hG]
  · simp [evaluate_answer, extract_numeric, searchFirst, p1At, p2At, p3At, cueMatchCI,
      numAfterCue, numTokenAt, numTokenCore, dotTail, skipDollar, starStar, findNumTokens,
      findNumTokensF, parseTok, parseFloatCore, parseUnsignedQ, digitsToNat, isNumMid,
      isPySpace, pyFloatGT, stripWS]

/-- C6 counterexample: at the claim's exact-1e-6 boundary the evaluator
answers true, not false — the extracted value of "1.000001" and the
parsed ground truth "1" differ by exactly 1e-6 as decimals, yet the
doubles the program compares differ by slightly less, so the strict
comparison accepts the pair. -/
theorem numeric_eval_tolerance_cex :
    extract_numeric "1.000001" = some (1000001 / 1000000) ∧
    pyFloatGT "1" = some 1 ∧
    (1000001 : ℚ) / 1000000 - 1 = 1 / 1000000 ∧
    evaluate_answer "numeric" "1.000001" "1" = true :=
  ⟨extractNum_1000001, pyFloatGT_one, by norm_num, evalNum_1000001⟩

/-! ### C8: multiple-choice extraction is uppercase-normalized -/

theorem searchFirst_some_ex {α : Type} {m : List Char → Option α} {l : List Char} {v : α}
    (h : searchFirst m l = some v) : ∃ l', m l' = some v := by
  induction l with
  | nil => simp [searchFirst] at h
  | cons c rest ih =>
    cases hm : m (c :: rest) with
    | some w =>
      simp only [searchFirst, hm] at h
      exact ⟨c :: rest, by rw [hm, h]⟩
    | none =>
      simp only [searchFirst, hm] at h
      exact ih h

theorem mcqAfterCue_letter {r : List Char} {c : Char} (h : mcqAfterCue r = some c) :
    mcqLetter c = true := by
  simp only [mcqAfterCue] at h
  split at h
  · split at h
    · simp only [Option.some.injEq] at h
      subst h
      assumption
    · cases h
  · cases h

theorem mcq1At_letter {l : List Char} {c : Char} (h : mcq1At l = some c) :
    mcqLetter c = true := by
  simp only [mcq1At] at h
  split at h
  · exact mcqAfterCue_letter h
  · split at h
    · exact mcqAfterCue_letter h
    · split at h
      · exact mcqAfterCue_letter h
      · cases h

theorem mcq2Scan_letter : ∀ {l : List Char} {prevW : Bool} {c : Char},
    mcq2Scan prevW l = some c → mcqLetter c = true := by
  intro l
  induction l with
  | nil => intro prevW c h; simp [mcq2Scan] at h
  | cons a rest ih =>
    intro prevW c h
    rw [mcq2Scan] at h
    split_ifs at h with hc
    · simp only [Option.some.injEq] at h
      subst h
      exact hc.2.1
    · exact ih h

theorem mcq3At_letter {l : List Char} {c : Char} (h : mcq3At l = some c) :
    mcqLetter c = true := by
  simp only [mcq3At] at h
  split at h
  · split at h
    · simp only [Option.some.injEq] at h
      subst h
      assumption
    · cases h
  · cases h

theorem mcqLetter_upper_mem {c : Char} (h : mcqLetter c = true) :
    String.singleton c.toUpper ∈ (["A", "B", "C", "D"] : List String) := by
  simp only [mcqLetter, Bool.or_eq_true, decide_eq_true_eq] at h
  rcases h with ((((((h | h) | h) | h) | h) | h) | h) | h <;> subst h <;> decide

theorem mcqLetter_upperABCD {c : Char} (h : mcqLetter c = true) : upperABCD c = true := by
  simp only [mcqLetter, Bool.or_eq_true, decide_eq_true_eq] at h
  rcases h with ((((((h | h) | h) | h) | h) | h) | h) | h <;> subst h <;> decide

theorem upperABCD_mem {c : Char} (h : upperABCD c = true) :
    String.singleton c.toUpper ∈ (["A", "B", "C", "D"] : List String) := by
  simp only [upperABCD, Bool.or_eq_true, decide_eq_true_eq] at h
  rcases h with ((h | h) | h) | h <;> rw [h] <;> decide

/-- C8: whenever multiple-choice extraction returns an answer it is a
single uppercase letter A-D, and a text whose trimmed content is one
letter a-d/A-D matching none of the three patterns extracts to that
letter uppercased. -/
theorem mcq_extraction_normalized :
    (∀ (t s : String), extract_mcq t = some s → s ∈ (["A", "B", "C", "D"] : List String)) ∧
    (∀ (t : String) (c : Char), mcqLetter c = true →
      searchFirst mcq1At t.data = none → mcq2Scan false t.data = none →
      searchFirst mcq3At t.data = none → stripWS t.data = [c] →
      extract_mcq t = some (String.singleton c.toUpper)) := by
  constructor
  · intro t s h
    simp only [extract_mcq] at h
    split_ifs at h with ht
    split at h
    · rename_i c heq
      simp only [Option.some.injEq] at h
      subst h
      obtain ⟨l', hl'⟩ := searchFirst_some_ex heq
      exact mcqLetter_upper_mem (mcq1At_letter hl')
    · split at h
      · rename_i c heq
        simp only [Option.some.injEq] at h
        subst h
        exact mcqLetter_upper_mem (mcq2Scan_letter heq)
      · split at h
        · rename_i c heq
          simp only [Option.some.injEq] at h
          subst h
          obtain ⟨l', hl'⟩ := searchFirst_some_ex heq
          exact mcqLetter_upper_mem (mcq3At_letter hl')
        · split at h
          · rename_i c heq
            split_ifs at h with hu
            simp only [Option.some.injEq] at h
            subst h
            exact upperABCD_mem hu
          · cases h
  · intro t c hc h1 h2 h3 h5
    have ht : ¬ t = "" := by
      intro he
      subst he
      simp [stripWS] at h5
    simp only [extract_mcq, ht, if_false, h1, h2, h3, h5]
    simp [mcqLetter_upperABCD hc]

/-- C8 witness: a single trimmed letter extracts uppercased. -/
theorem mcq_extraction_normalized_witness :
    extract_mcq " b " = some (String.singleton 'b'.toUpper) :=
  mcq_extraction_normalized.2 " b " 'b' (by decide) (by decide) (by decide) (by decide)
    (by decide)

/-! ### C4: mechanical majority vote -/

theorem find?_congr {α : Type} {p q : α → Bool} :
    ∀ {l : List α}, (∀ a ∈ l, p a = q a) → l.find? p = l.find? q := by
  intro l
  induction l with
  | nil => intro _; rfl
  | cons a rest ih =>
    intro h
    have ha := h a (List.mem_cons_self _ _)
    cases hp : p a with
    | true =>
      rw [List.find?_cons_of_pos _ hp, List.find?_cons_of_pos _ (ha ▸ hp)]
    | false =>
      rw [List.find?_cons_of_neg _ (by simp [hp]), List.find?_cons_of_neg _ (by simp [← ha, hp])]
      exact ih (fun b hb => h b (List.mem_cons_of_mem _ hb))

theorem mcAux_mem {α : Type} (cnt : α → Nat) :
    ∀ (l : List α) (b : α), mcAux cnt b l ∈ b :: l := by
  intro l
  induction l with
  | nil => intro b; simp [mcAux]
  | cons a rest ih =>
    intro b
    rw [mcAux]
    by_cases hab : cnt a > cnt b
    · rw [if_pos hab]
      exact List.mem_cons_of_mem _ (ih a)
    · rw [if_neg hab]
      rcases List.mem_cons.mp (ih b) with h | h
      · rw [h]
        exact List.mem_cons_self _ _
      · exact List.mem_cons_of_mem _ (List.mem_cons_of_mem _ h)

theorem mcAux_max {α : Type} (cnt : α → Nat) :
    ∀ (l : List α) (b y : α), y ∈ b :: l → cnt y ≤ cnt (mcAux cnt b l) := by
  intro l
  induction l with
  | nil =>
    intro b y hy
    rcases List.mem_cons.mp hy with h | h
    · rw [h]
      simp [mcAux]
    · cases h
  | cons a rest ih =>
    intro b y hy
    rw [mcAux]
    by_cases hab : cnt a > cnt b
    · rw [if_pos hab]
      rcases List.mem_cons.mp hy with h | hy'
      · rw [h]
        exact le_trans (le_of_lt hab) (ih a a (List.mem_cons_self _ _))
      · exact ih a y hy'
    · rw [if_neg hab]
      rcases List.mem_cons.mp hy with h | hy'
      · rw [h]
        exact ih b b (List.mem_cons_self _ _)
      · rcases List.mem_cons.mp hy' with h | hy''
        · rw [h]
          exact le_trans (not_lt.mp hab) (ih b b (List.mem_cons_self _ _))
        · exact ih b y (List.mem_cons_of_mem _ hy'')

theorem mcAux_find {α : Type} (cnt : α → Nat) :
    ∀ (l : List α) (b : α),
      (b :: l).find? (fun y => decide (cnt (mcAux cnt b l) ≤ cnt y)) =
        some (mcAux cnt b l) := by
  intro l
  induction l with
  | nil =>
    intro b
    simp [mcAux, List.find?]
  | cons a rest ih =>
    intro b
    rw [mcAux]
    by_cases hab : cnt a > cnt b
    · rw [if_pos hab]
      have hR : cnt a ≤ cnt (mcAux cnt a rest) :=
        mcAux_max cnt rest a a (List.mem_cons_self _ _)
      rw [List.find?_cons_of_neg _ (by simp only [decide_eq_true_eq]; omega)]
      exact ih a
    · rw [if_neg hab]
      by_cases hbR : cnt (mcAux cnt b rest) ≤ cnt b
      · have h1 := ih b
        rw [List.find?_cons_of_pos _ (by simp only [decide_eq_true_eq]; exact hbR)] at h1
        have h2 : b = mcAux cnt b rest := by simpa using h1
        rw [List.find?_cons_of_pos _ (by simp only [decide_eq_true_eq]; exact hbR)]
        rw [← h2]
      · have h1 := ih b
        rw [List.find?_cons_of_neg _ (by simp only [decide_eq_true_eq]; exact hbR)] at h1
        have hbR' : cnt b < cnt (mcAux cnt b rest) := not_le.mp hbR
        rw [List.find?_cons_of_neg _ (by simp only [decide_eq_true_eq]; exact hbR)]
        rw [List.find?_cons_of_neg _ (by simp only [decide_eq_true_eq]; omega)]
        exact h1

theorem mostCommon_eq_spec {α : Type} [DecidableEq α] (l : List α) :
    mostCommon l = specMajorityVote l := by
  cases l with
  | nil => rfl
  | cons x rest =>
    simp only [mostCommon, specMajorityVote]
    have hfind := mcAux_find (fun a => (x :: rest).count a) rest x
    have hcongr : ∀ a ∈ x :: rest,
        ((x :: rest).all (fun b => decide ((x :: rest).count b ≤ (x :: rest).count a))) =
          decide ((x :: rest).count (mcAux (fun a => (x :: rest).count a) x rest) ≤
            (x :: rest).count a) := by
      intro a ha
      by_cases hp : (x :: rest).count (mcAux (fun a => (x :: rest).count a) x rest) ≤
          (x :: rest).count a
      · rw [decide_eq_true hp, List.all_eq_true]
        intro b hb
        have hmax : (x :: rest).count b ≤
            (x :: rest).count (mcAux (fun a => (x :: rest).count a) x rest) :=
          mcAux_max (fun a => (x :: rest).count a) rest x b hb
        simp only [decide_eq_true_eq]
        omega
      · rw [decide_eq_false hp, Bool.eq_false_iff]
        intro hall
        rw [List.all_eq_true] at hall
        have := hall (mcAux (fun a => (x :: rest).count a) x rest)
          (mcAux_mem (fun a => (x :: rest).count a) rest x)
        simp only [decide_eq_true_eq] at this
        exact hp this
    rw [find?_congr hcongr]
    exact hfind.symm

/-- C4: the mechanical-majority vote is the first-encountered answer of
maximal count among the extracted answers (skipping errored and
unextractable responses); a run with no extractable answers is
incorrect; the batch statistic counts exactly the runs whose vote
evaluates correct; and on the concrete examples ["7","9","7"] with
ground truth 7 the run is correct while the tie ["A","B"] resolves to
"A" and is incorrect for ground truth "B". -/
theorem mechanical_majority_first_mode :
    (∀ l : List ℚ, mostCommon l = specMajorityVote l) ∧
    (∀ l : List String, mostCommon l = specMajorityVote l) ∧
    (∀ r : Run, mechAnswersNum r = [] → mechCorrect "numeric" r = false) ∧
    (∀ r : Run, mechAnswersMcq r = [] → mechCorrect "mcq" r = false) ∧
    (∀ (b : EnsembleBatch) (st : EnsembleStats), load_ensemble b = some st →
      st.mechanical_majority_acc =
        ((b.runs.countP (fun r => mechCorrect (evaluatorType b.dataset) r) : ℚ) /
          (b.runs.length : ℚ)) * 100) ∧
    mostCommon (mechAnswersMcq runTieAB) = some "A" ∧
    mechCorrect "mcq" runTieAB = false ∧
    mechCorrect "numeric" runNum779 = true := by
  refine ⟨fun l => mostCommon_eq_spec l, fun l => mostCommon_eq_spec l, ?_, ?_, ?_,
    by decide, by decide, ?_⟩
  · intro r h
    simp [mechCorrect, h, mostCommon]
  · intro r h
    simp [mechCorrect, h, mostCommon]
  · intro b st hload
    simp only [load_ensemble, load_ensembleO] at hload
    split_ifs at hload
    · exact absurd hload (by simp [LoadOutcome.toStats])
    · exact absurd hload (by simp [LoadOutcome.toStats])
    · exact absurd hload (by simp [LoadOutcome.toStats])
    · split at hload
      · exact absurd hload (by simp [LoadOutcome.toStats])
      simp only [LoadOutcome.toStats, Option.some.injEq] at hload
      subst hload
      rfl
  · have h7 : extract_numeric "7" = some 7 := by
      simp [extract_numeric, searchFirst, p1At, p2At, p3At, cueMatchCI, numAfterCue,
        numTokenAt, numTokenCore, dotTail, skipDollar, starStar, findNumTokens, findNumTokensF, parseTok,
        parseFloatCore, parseUnsignedQ, digitsToNat, isNumMid, isPySpace]
    have h9 : extract_numeric "9" = some 9 := by
      simp [extract_numeric, searchFirst, p1At, p2At, p3At, cueMatchCI, numAfterCue,
        numTokenAt, numTokenCore, dotTail, skipDollar, starStar, findNumTokens, findNumTokensF, parseTok,
        parseFloatCore, parseUnsignedQ, digitsToNat, isNumMid, isPySpace]
    have hans : mechAnswersNum runNum779 = [7, 9, 7] := by
      simp [mechAnswersNum, runNum779, h7, h9]
    have hmc : mostCommon ([7, 9, 7] : List ℚ) = some 7 := by
      norm_num [mostCommon, mcAux, List.count_cons, List.count_nil, beq_iff_eq]
    have hgt : pyFloatGT "7" = some 7 := by
      simp [pyFloatGT, stripWS, parseFloatCore, parseUnsignedQ, digitsToNat, isPySpace]
    rw [mechCorrect, if_pos rfl, hans, hmc]
    show evalNumericVote 7 "7" = true
    simp [evalNumericVote, hgt]

/-- C4 witness: a run with no extractable answers counts as incorrect. -/
theorem mechanical_majority_first_mode_witness :
    mechCorrect "numeric" runNoAns = false :=
  mechanical_majority_first_mode.2.2.1 runNoAns rfl

/-! ### C7: numeric extraction priority and fallback -/

theorem digit_facts {c : Char} (h : c.isDigit = true) :
    c ≠ ',' ∧ c ≠ '+' ∧ c ≠ '-' ∧ c ≠ '.' := by
  refine ⟨?_, ?_, ?_, ?_⟩ <;> rintro rfl <;> exact absurd h (by decide)

theorem takeWhile_append_all {p : Char → Bool} {l1 l2 : List Char}
    (h : ∀ c ∈ l1, p c = true) : (l1 ++ l2).takeWhile p = l1 ++ l2.takeWhile p := by
  induction l1 with
  | nil => rfl
  | cons a rest ih =>
    have ha := h a (List.mem_cons_self _ _)
    simp only [List.cons_append, List.takeWhile_cons, ha, if_true]
    rw [ih (fun c hc => h c (List.mem_cons_of_mem _ hc))]

theorem dropWhile_append_all {p : Char → Bool} {l1 l2 : List Char}
    (h : ∀ c ∈ l1, p c = true) : (l1 ++ l2).dropWhile p = l2.dropWhile p := by
  induction l1 with
  | nil => rfl
  | cons a rest ih =>
    have ha := h a (List.mem_cons_self _ _)
    simp only [List.cons_append, List.dropWhile_cons, ha, if_true]
    exact ih (fun c hc => h c (List.mem_cons_of_mem _ hc))

theorem parseUnsignedQ_digits {a b : List Char} (ha : ∀ c ∈ a, c.isDigit = true)
    (hne : a ≠ []) (hb : ∀ c ∈ b, c.isDigit = true) :
    (parseUnsignedQ (a ++ '.' :: b)).isSome = true ∧ (parseUnsignedQ a).isSome = true := by
  have htw : a.takeWhile Char.isDigit = a := by
    have h2 : (a ++ ([] : List Char)).takeWhile Char.isDigit =
        a ++ ([] : List Char).takeWhile Char.isDigit := takeWhile_append_all ha
    simpa using h2
  have hdw : a.dropWhile Char.isDigit = [] := by
    have h2 : (a ++ ([] : List Char)).dropWhile Char.isDigit =
        ([] : List Char).dropWhile Char.isDigit := dropWhile_append_all ha
    simpa using h2
  have hae : a.isEmpty = false := by
    cases a with
    | nil => exact absurd rfl hne
    | cons x xs => rfl
  constructor
  · unfold parseUnsignedQ
    rw [takeWhile_append_all ha, dropWhile_append_all ha]
    have hdot : Char.isDigit '.' = false := by decide
    simp only [List.takeWhile_cons, List.dropWhile_cons, hdot, Bool.false_eq_true, if_false]
    rw [if_pos]
    · simp
    · rw [Bool.and_eq_true]
      refine ⟨List.all_eq_true.mpr hb, ?_⟩
      simp [hae]
  · unfold parseUnsignedQ
    rw [htw, hdw]
    simp [hae]

theorem dotTail_eq_some {l r : List Char} (h : dotTail l = some r) : l = '.' :: r := by
  cases l with
  | nil => cases h
  | cons c rest =>
    by_cases hc : c = '.'
    · subst hc
      simp only [dotTail, Option.some.injEq] at h
      rw [h]
    · exfalso
      have hnone : dotTail (c :: rest) = none := by
        unfold dotTail
        split
        · rename_i heq
          rw [List.cons.injEq] at heq
          exact absurd heq.1 hc
        · rfl
      rw [hnone] at h
      cases h

theorem numTokenCore_spec {l t r : List Char} (h : numTokenCore l = some (t, r)) :
    (parseUnsignedQ (t.filter (fun c => c ≠ ','))).isSome = true ∧
    (∃ c cs, t.filter (fun c => c ≠ ',') = c :: cs ∧ c.isDigit = true) ∧
    r.length < l.length ∧ (∃ d ∈ l, d.isDigit = true) := by
  cases l with
  | nil => simp [numTokenCore] at h
  | cons c rest =>
    simp only [numTokenCore] at h
    by_cases hd : c.isDigit = true
    case neg =>
      rw [if_neg hd] at h
      cases h
    rw [if_pos hd] at h
    have hmid : ∀ x ∈ (rest.takeWhile isNumMid).filter (fun c => c ≠ ','), x.isDigit = true := by
      intro x hx
      rw [List.mem_filter] at hx
      have h1 := List.mem_takeWhile_imp hx.1
      have h2 := hx.2
      simp only [isNumMid, Bool.or_eq_true, decide_eq_true_eq] at h1 h2
      rcases h1 with h1 | h1
      · exact h1
      · exact absurd h1 h2
    have hton : ∀ x ∈ c :: (rest.takeWhile isNumMid).filter (fun c => c ≠ ','),
        x.isDigit = true := by
      intro x hx
      rcases List.mem_cons.mp hx with hx1 | hx2
      · rw [hx1]; exact hd
      · exact hmid x hx2
    cases hdt : dotTail (rest.dropWhile isNumMid) with
    | some rest2 =>
      rw [hdt] at h
      simp only [Option.some.injEq, Prod.mk.injEq] at h
      obtain ⟨ht, hr⟩ := h
      subst ht
      subst hr
      have hfrac : ∀ x ∈ rest2.takeWhile Char.isDigit, x.isDigit = true :=
        fun x hx => List.mem_takeWhile_imp hx
      have hfil : ((c :: rest.takeWhile isNumMid) ++ '.' :: rest2.takeWhile Char.isDigit).filter
          (fun c => c ≠ ',') =
          (c :: (rest.takeWhile isNumMid).filter (fun c => c ≠ ',')) ++
            '.' :: rest2.takeWhile Char.isDigit := by
        rw [List.filter_append, List.filter_cons_of_pos (by simp [(digit_facts hd).1]),
          List.filter_cons_of_pos (by decide),
          (List.filter_eq_self (l := rest2.takeWhile Char.isDigit)).mpr
            (fun x hx => by simp [(digit_facts (hfrac x hx)).1])]
      refine ⟨?_, ?_, ?_, ⟨c, List.mem_cons_self _ _, hd⟩⟩
      · rw [hfil]
        exact (parseUnsignedQ_digits hton (by simp) hfrac).1
      · exact ⟨c, (rest.takeWhile isNumMid).filter (fun c => c ≠ ',') ++
          '.' :: rest2.takeWhile Char.isDigit, hfil, hd⟩
      · have l1 : (rest.dropWhile isNumMid).length ≤ rest.length :=
          (List.dropWhile_suffix _).length_le
        have l2 : rest2.length + 1 = (rest.dropWhile isNumMid).length := by
          rw [dotTail_eq_some hdt]
          rfl
        have l3 : (rest2.dropWhile Char.isDigit).length ≤ rest2.length :=
          (List.dropWhile_suffix _).length_le
        simp only [List.length_cons]
        omega
    | none =>
      rw [hdt] at h
      simp only [Option.some.injEq, Prod.mk.injEq] at h
      obtain ⟨ht, hr⟩ := h
      subst ht
      subst hr
      have hfil : (c :: rest.takeWhile isNumMid).filter (fun c => c ≠ ',') =
          c :: (rest.takeWhile isNumMid).filter (fun c => c ≠ ',') :=
        List.filter_cons_of_pos (by simp [(digit_facts hd).1])
      refine ⟨?_, ?_, ?_, ⟨c, List.mem_cons_self _ _, hd⟩⟩
      · rw [hfil]
        exact (parseUnsignedQ_digits (b := []) hton (by simp) (fun x hx => by cases hx)).2
      · exact ⟨c, _, hfil, hd⟩
      · have l1 : (rest.dropWhile isNumMid).length ≤ rest.length :=
          (List.dropWhile_suffix _).length_le
        simp only [List.length_cons]
        omega

theorem numTokenAt_spec {l t r : List Char} (h : numTokenAt l = some (t, r)) :
    (parseTok t).isSome = true ∧ r.length < l.length ∧ ∃ d ∈ l, d.isDigit = true := by
  unfold numTokenAt at h
  split at h
  · rename_i rest
    cases hc : numTokenCore rest with
    | none => rw [hc] at h; cases h
    | some p =>
      obtain ⟨t0, r0⟩ := p
      rw [hc] at h
      simp only [Option.map_some', Option.some.injEq, Prod.mk.injEq] at h
      obtain ⟨ht, hr⟩ := h
      subst ht
      subst hr
      obtain ⟨hparse, hhead, hlen, hdig⟩ := numTokenCore_spec hc
      refine ⟨?_, by simp only [List.length_cons]; omega, ?_⟩
      · unfold parseTok
        rw [List.filter_cons_of_pos (by decide)]
        show (parseFloatCore ('+' :: t0.filter (fun c => c ≠ ','))).isSome = true
        rw [show parseFloatCore ('+' :: t0.filter (fun c => c ≠ ',')) =
            parseUnsignedQ (t0.filter (fun c => c ≠ ',')) from rfl]
        exact hparse
      · obtain ⟨d, hd1, hd2⟩ := hdig
        exact ⟨d, List.mem_cons_of_mem _ hd1, hd2⟩
  · rename_i rest
    cases hc : numTokenCore rest with
    | none => rw [hc] at h; cases h
    | some p =>
      obtain ⟨t0, r0⟩ := p
      rw [hc] at h
      simp only [Option.map_some', Option.some.injEq, Prod.mk.injEq] at h
      obtain ⟨ht, hr⟩ := h
      subst ht
      subst hr
      obtain ⟨hparse, hhead, hlen, hdig⟩ := numTokenCore_spec hc
      refine ⟨?_, by simp only [List.length_cons]; omega, ?_⟩
      · unfold parseTok
        rw [List.filter_cons_of_pos (by decide)]
        show (parseFloatCore ('-' :: t0.filter (fun c => c ≠ ','))).isSome = true
        rw [show parseFloatCore ('-' :: t0.filter (fun c => c ≠ ',')) =
            (parseUnsignedQ (t0.filter (fun c => c ≠ ','))).map (fun q => -q) from rfl]
        cases hp : parseUnsignedQ (t0.filter (fun c => c ≠ ',')) with
        | none => rw [hp] at hparse; cases hparse
        | some q => rfl
      · obtain ⟨d, hd1, hd2⟩ := hdig
        exact ⟨d, List.mem_cons_of_mem _ hd1, hd2⟩
  · obtain ⟨hparse, hhead, hlen, hdig⟩ := numTokenCore_spec h
    refine ⟨?_, hlen, hdig⟩
    unfold parseTok parseFloatCore
    obtain ⟨c0, cs0, hfil0, hd0⟩ := hhead
    rw [hfil0]
    have hne : c0 ≠ '+' ∧ c0 ≠ '-' := ⟨(digit_facts hd0).2.1, (digit_facts hd0).2.2.1⟩
    split
    · rename_i heq
      rw [List.cons.injEq] at heq
      exact absurd heq.1 hne.1
    · rename_i heq
      rw [List.cons.injEq] at heq
      exact absurd heq.1 hne.2
    · rw [← hfil0]
      exact hparse

theorem numTokenCore_none_of_noDigit {l : List Char}
    (h : ∀ c ∈ l, c.isDigit = false) : numTokenCore l = none := by
  cases l with
  | nil => rfl
  | cons c rest =>
    have hc := h c (List.mem_cons_self _ _)
    simp [numTokenCore, hc]

theorem numTokenAt_none_of_noDigit {l : List Char}
    (h : ∀ c ∈ l, c.isDigit = false) : numTokenAt l = none := by
  unfold numTokenAt
  split
  · rename_i rest
    rw [numTokenCore_none_of_noDigit (fun c hc => h c (List.mem_cons_of_mem _ hc))]
    rfl
  · rename_i rest
    rw [numTokenCore_none_of_noDigit (fun c hc => h c (List.mem_cons_of_mem _ hc))]
    rfl
  · exact numTokenCore_none_of_noDigit h

theorem numTokenAt_none_head {c : Char} {rest : List Char}
    (h : numTokenAt (c :: rest) = none) : c.isDigit = false := by
  by_contra hd
  rw [Bool.not_eq_false] at hd
  have h1 : numTokenAt (c :: rest) = numTokenCore (c :: rest) := by
    unfold numTokenAt
    split
    · rename_i heq
      rw [List.cons.injEq] at heq
      exfalso
      have : c = '+' := heq.1
      rw [this] at hd
      exact absurd hd (by decide)
    · rename_i heq
      rw [List.cons.injEq] at heq
      exfalso
      have : c = '-' := heq.1
      rw [this] at hd
      exact absurd hd (by decide)
    · rfl
  rw [h1] at h
  simp only [numTokenCore] at h
  rw [if_pos hd] at h
  cases hdt : dotTail (rest.dropWhile isNumMid) with
  | some rest2 => rw [hdt] at h; cases h
  | none => rw [hdt] at h; cases h

theorem searchFirst_none_of {α : Type} {m : List Char → Option α}
    (hm : ∀ l', (∀ c ∈ l', c.isDigit = false) → m l' = none) :
    ∀ {l : List Char}, (∀ c ∈ l, c.isDigit = false) → searchFirst m l = none := by
  intro l
  induction l with
  | nil => intro _; rfl
  | cons c rest ih =>
    intro h
    rw [searchFirst, hm _ h]
    exact ih (fun x hx => h x (List.mem_cons_of_mem _ hx))

theorem skipDollar_subset {l : List Char} : ∀ c ∈ skipDollar l, c ∈ l := by
  unfold skipDollar
  split
  · intro c hc
    exact List.mem_cons_of_mem _ hc
  · intro c hc
    exact hc

theorem cueMatchCI_subset : ∀ {cue l r : List Char},
    cueMatchCI cue l = some r → ∀ c ∈ r, c ∈ l := by
  intro cue
  induction cue with
  | nil =>
    intro l r h c hc
    simp only [cueMatchCI, Option.some.injEq] at h
    rw [h]
    exact hc
  | cons p ps ih =>
    intro l r h c hc
    cases l with
    | nil => cases h
    | cons x xs =>
      rw [cueMatchCI] at h
      split_ifs at h with he
      exact List.mem_cons_of_mem _ (ih h c hc)

theorem numAfterCue_none {r : List Char} (h : ∀ c ∈ r, c.isDigit = false) :
    numAfterCue r = none := by
  unfold numAfterCue
  rw [numTokenAt_none_of_noDigit]
  · rfl
  · intro c hc
    exact h c ((List.dropWhile_suffix _).subset
      (skipDollar_subset c ((List.dropWhile_suffix _).subset hc)))

theorem p1At_none {l : List Char} (h : ∀ c ∈ l, c.isDigit = false) :
    p1At l = none := by
  unfold p1At
  split
  · rename_i r heq
    exact numAfterCue_none (fun c hc => h c (cueMatchCI_subset heq c hc))
  · split
    · rename_i r heq
      exact numAfterCue_none (fun c hc => h c (cueMatchCI_subset heq c hc))
    · split
      · rename_i r heq
        exact numAfterCue_none (fun c hc => h c (cueMatchCI_subset heq c hc))
      · split
        · rename_i r heq
          exact numAfterCue_none (fun c hc => h c (cueMatchCI_subset heq c hc))
        · rfl

theorem p2At_none {l : List Char} (h : ∀ c ∈ l, c.isDigit = false) :
    p2At l = none := by
  unfold p2At
  split
  · rename_i r
    rw [numTokenAt_none_of_noDigit]
    intro c hc
    have h2 : c ∈ r := skipDollar_subset c hc
    exact h c (List.mem_cons_of_mem _ (List.mem_cons_of_mem _ h2))
  · rfl

theorem p3At_none {l : List Char} (h : ∀ c ∈ l, c.isDigit = false) :
    p3At l = none := by
  unfold p3At
  split
  · rename_i r
    rw [numTokenAt_none_of_noDigit (fun c hc => h c (List.mem_cons_of_mem _ hc))]
    rfl
  · rfl

theorem numAfterCue_parse {r g : List Char} (h : numAfterCue r = some g) :
    (parseTok g).isSome = true := by
  unfold numAfterCue at h
  cases hna : numTokenAt ((skipDollar (r.dropWhile isPySpace)).dropWhile isPySpace) with
  | none => rw [hna] at h; cases h
  | some p =>
    rw [hna] at h
    simp only [Option.map_some', Option.some.injEq] at h
    subst h
    exact (numTokenAt_spec (show _ = some (p.1, p.2) from by rw [hna])).1

theorem p1At_parse {l g : List Char} (h : p1At l = some g) :
    (parseTok g).isSome = true := by
  unfold p1At at h
  split at h
  · exact numAfterCue_parse h
  · split at h
    · exact numAfterCue_parse h
    · split at h
      · exact numAfterCue_parse h
      · split at h
        · exact numAfterCue_parse h
        · cases h

theorem p2At_parse {l g : List Char} (h : p2At l = some g) :
    (parseTok g).isSome = true := by
  unfold p2At at h
  split at h
  · rename_i r
    cases hna : numTokenAt (skipDollar r) with
    | none => rw [hna] at h; cases h
    | some p =>
      obtain ⟨t0, rest0⟩ := p
      simp only [hna] at h
      split_ifs at h
      simp only [Option.some.injEq] at h
      subst h
      exact (numTokenAt_spec hna).1
  · cases h

theorem p3At_parse {l g : List Char} (h : p3At l = some g) :
    (parseTok g).isSome = true := by
  unfold p3At at h
  split at h
  · rename_i r
    cases hna : numTokenAt r with
    | none => rw [hna] at h; cases h
    | some p =>
      rw [hna] at h
      simp only [Option.map_some', Option.some.injEq] at h
      subst h
      exact (numTokenAt_spec (show _ = some (p.1, p.2) from by rw [hna])).1
  · cases h

theorem searchFirst_parse {m : List Char → Option (List Char)}
    (hm : ∀ l' g', m l' = some g' → (parseTok g').isSome = true) :
    ∀ {l g : List Char}, searchFirst m l = some g → (parseTok g).isSome = true := by
  intro l
  induction l with
  | nil => intro g h; cases h
  | cons c rest ih =>
    intro g h
    rw [searchFirst] at h
    cases hmc : m (c :: rest) with
    | some v =>
      rw [hmc] at h
      simp only [Option.some.injEq] at h
      subst h
      exact hm _ _ hmc
    | none =>
      rw [hmc] at h
      exact ih h

theorem getLast?_mem {α : Type} : ∀ {l : List α} {a : α}, l.getLast? = some a → a ∈ l := by
  intro l
  induction l with
  | nil => intro a h; cases h
  | cons x rest ih =>
    intro a h
    cases rest with
    | nil =>
      rw [List.getLast?_singleton] at h
      simp only [Option.some.injEq] at h
      rw [h]
      exact List.mem_cons_self _ _
    | cons y ys =>
      rw [List.getLast?_cons_cons] at h
      exact List.mem_cons_of_mem _ (ih h)

theorem findF_eq_nil_iff : ∀ (fuel : Nat) (l : List Char), l.length ≤ fuel →
    (findNumTokensF fuel l = [] ↔ ∀ c ∈ l, c.isDigit = false) := by
  intro fuel
  induction fuel with
  | zero =>
    intro l hl
    have : l = [] := List.length_eq_zero.mp (Nat.le_zero.mp hl)
    subst this
    simp [findNumTokensF]
  | succ n ih =>
    intro l hl
    cases l with
    | nil => simp [findNumTokensF]
    | cons c rest =>
      rw [findNumTokensF]
      cases hna : numTokenAt (c :: rest) with
      | some p =>
        obtain ⟨t, r⟩ := p
        simp only [hna]
        constructor
        · intro h
          cases h
        · intro hnd
          obtain ⟨d, hd1, hd2⟩ := (numTokenAt_spec hna).2.2
          rw [hnd d hd1] at hd2
          cases hd2
      | none =>
        simp only [hna]
        have hcd : c.isDigit = false := numTokenAt_none_head hna
        rw [ih rest (by simp only [List.length_cons] at hl; omega)]
        constructor
        · intro h x hx
          rcases List.mem_cons.mp hx with h1 | h1
          · rw [h1]
            exact hcd
          · exact h x h1
        · intro h x hx
          exact h x (List.mem_cons_of_mem _ hx)

theorem findF_parse : ∀ (fuel : Nat) (l t : List Char),
    t ∈ findNumTokensF fuel l → (parseTok t).isSome = true := by
  intro fuel
  induction fuel with
  | zero =>
    intro l t h
    simp [findNumTokensF] at h
  | succ n ih =>
    intro l t h
    cases l with
    | nil => simp [findNumTokensF] at h
    | cons c rest =>
      rw [findNumTokensF] at h
      cases hna : numTokenAt (c :: rest) with
      | some p =>
        obtain ⟨t0, r⟩ := p
        rw [hna] at h
        rcases List.mem_cons.mp h with h1 | h1
        · rw [h1]
          exact (numTokenAt_spec hna).1
        · exact ih r t h1
      | none =>
        rw [hna] at h
        exact ih rest t h

/-- C7: numeric extraction tries the cue-phrase, emphasis-currency and
bare-currency patterns in strict priority order (first matching pattern,
first occurrence); when none matches it falls back to the last
standalone numeric token; it returns none exactly when the text has no
numeric token (equivalently, no digit); and commas are stripped before
parsing, so "final answer: 1,234.5" extracts 1234.5. -/
theorem numeric_extraction_priority :
    extract_numeric "final answer: 1,234.5" = some (2469 / 2) ∧
    (∀ t : String, extract_numeric t = none ↔ findNumTokens t.data = []) ∧
    (∀ t : String, findNumTokens t.data = [] ↔ ∀ c ∈ t.data, c.isDigit = false) ∧
    (∀ (t : String) (g : List Char), t ≠ "" → searchFirst p1At t.data = some g →
      extract_numeric t = parseTok g) ∧
    (∀ (t : String) (g : List Char), t ≠ "" → searchFirst p1At t.data = none →
      searchFirst p2At t.data = some g → extract_numeric t = parseTok g) ∧
    (∀ (t : String) (g : List Char), t ≠ "" → searchFirst p1At t.data = none →
      searchFirst p2At t.data = none → searchFirst p3At t.data = some g →
      extract_numeric t = parseTok g) ∧
    (∀ t : String, t ≠ "" → searchFirst p1At t.data = none →
      searchFirst p2At t.data = none → searchFirst p3At t.data = none →
      extract_numeric t = ((findNumTokens t.data).getLast?).bind parseTok) := by
  refine ⟨?_, ?_, ?_, ?_, ?_, ?_, ?_⟩
  · simp [extract_numeric, searchFirst, p1At, p2At, p3At, cueMatchCI, numAfterCue,
      numTokenAt, numTokenCore, dotTail, skipDollar, starStar, findNumTokens,
      findNumTokensF, parseTok, parseFloatCore, parseUnsignedQ, digitsToNat,
      isNumMid, isPySpace]
    norm_num
  · intro t
    constructor
    · intro hnone
      by_cases ht : t = ""
      · subst ht
        rfl
      cases h1 : searchFirst p1At t.data with
      | some g =>
        simp only [extract_numeric, if_neg ht, h1] at hnone
        have hp := searchFirst_parse (fun l' g' hg => p1At_parse hg) h1
        rw [hnone] at hp
        simp at hp
      | none =>
      cases h2 : searchFirst p2At t.data with
      | some g =>
        simp only [extract_numeric, if_neg ht, h1, h2] at hnone
        have hp := searchFirst_parse (fun l' g' hg => p2At_parse hg) h2
        rw [hnone] at hp
        simp at hp
      | none =>
      cases h3 : searchFirst p3At t.data with
      | some g =>
        simp only [extract_numeric, if_neg ht, h1, h2, h3] at hnone
        have hp := searchFirst_parse (fun l' g' hg => p3At_parse hg) h3
        rw [hnone] at hp
        simp at hp
      | none =>
        simp only [extract_numeric, if_neg ht, h1, h2, h3] at hnone
        cases hgl : (findNumTokens t.data).getLast? with
        | none => exact List.getLast?_eq_none_iff.mp hgl
        | some tk =>
          exfalso
          have hmem : tk ∈ findNumTokensF t.data.length t.data := getLast?_mem hgl
          have hps := findF_parse t.data.length t.data tk hmem
          rw [hgl] at hnone
          have hbind : parseTok tk = none := hnone
          rw [hbind] at hps
          simp at hps
    · intro htok
      have hnd : ∀ c ∈ t.data, c.isDigit = false :=
        (findF_eq_nil_iff t.data.length t.data le_rfl).mp htok
      by_cases ht : t = ""
      · subst ht
        rfl
      simp only [extract_numeric, if_neg ht,
        searchFirst_none_of (fun l' hl' => p1At_none hl') hnd,
        searchFirst_none_of (fun l' hl' => p2At_none hl') hnd,
        searchFirst_none_of (fun l' hl' => p3At_none hl') hnd]
      rw [show findNumTokens t.data = [] from htok]
      rfl
  · intro t
    exact findF_eq_nil_iff t.data.length t.data le_rfl
  · intro t g ht h1
    simp only [extract_numeric, if_neg ht, h1]
  · intro t g ht h1 h2
    simp only [extract_numeric, if_neg ht, h1, h2]
  · intro t g ht h1 h2 h3
    simp only [extract_numeric, if_neg ht, h1, h2, h3]
  · intro t ht h1 h2 h3
    simp only [extract_numeric, if_neg ht, h1, h2, h3]

/-- C7 witness: the fallback branch on a concrete pattern-free text. -/
theorem numeric_extraction_priority_witness :
    extract_numeric "abc 12" = ((findNumTokens ("abc 12".data)).getLast?).bind parseTok :=
  (numeric_extraction_priority.2.2.2.2.2.2) "abc 12" (by decide) (by decide) (by decide)
    (by decide)
